import Mathlib

/-!
Shallow embedding of the `tendermint-light-client` verification core
(ChorusOne fork of the tendermint-rs lite client) and proofs about it.

Conventions of the embedding:
* Bytes are `Nat` values `< 256`; byte strings are `List Nat`.
* Machine integers (`u64`, `i64`, ...) are `Nat`/`Int`; wherever the Rust
  code can overflow (release-mode wrapping semantics), the reduction
  `% 2^64` is written explicitly.
* Fallible Rust functions returning `Result<T, Error>` become
  `Except Kind T`.  `anomaly::Error<Kind>` wraps a `Kind` with optional
  context; only the `Kind` decides control flow, so errors are modelled
  as the `Kind` enumeration of `src/errors.rs`.
* The Ed25519 primitive (the external `ed25519_dalek` crate) is modelled
  as an oracle parameter: a parsing refinement `sigOk` (dalek's
  `Signature::try_from` accepts only 64-byte strings, plus
  version-dependent canonicity checks) and a verification predicate.
* All definitions are executable so that witnesses and counterexamples
  evaluate by `decide`.
-/

set_option maxRecDepth 1000000
set_option maxHeartbeats 4000000

namespace TmLite

/-- Decidable equality of `Except` results, so that concrete runs of the
fallible functions can be checked by `decide`. -/
instance {ε α : Type} [DecidableEq ε] [DecidableEq α] : DecidableEq (Except ε α) := fun x y =>
  match x, y with
  | .ok a, .ok b =>
    if h : a = b then .isTrue (by rw [h]) else .isFalse (by intro hh; cases hh; exact h rfl)
  | .ok _, .error _ => .isFalse (by intro hh; cases hh)
  | .error _, .ok _ => .isFalse (by intro hh; cases hh)
  | .error e, .error f =>
    if h : e = f then .isTrue (by rw [h]) else .isFalse (by intro hh; cases hh; exact h rfl)

/-! ## SHA-256 (the `sha2` crate primitive, FIPS 180-4) -/

/-- Truncation to a 32-bit word. -/
def w32 (n : Nat) : Nat := n % 4294967296

/-- Right rotation of a 32-bit word, written arithmetically. -/
def rotr (n w : Nat) : Nat := w / 2 ^ n + (w % 2 ^ n) * 2 ^ (32 - n)

/-- Logical right shift. -/
def shr (n w : Nat) : Nat := w / 2 ^ n

/-- Bitwise complement of a 32-bit word. -/
def bnot32 (w : Nat) : Nat := 4294967295 - w

/-- The 64 SHA-256 round constants. -/
def sha256K : List Nat :=
  [1116352408, 1899447441, 3049323471, 3921009573, 961987163, 1508970993,
   2453635748, 2870763221, 3624381080, 310598401, 607225278, 1426881987,
   1925078388, 2162078206, 2614888103, 3248222580, 3835390401, 4022224774,
   264347078, 604807628, 770255983, 1249150122, 1555081692, 1996064986,
   2554220882, 2821834349, 2952996808, 3210313671, 3336571891, 3584528711,
   113926993, 338241895, 666307205, 773529912, 1294757372, 1396182291,
   1695183700, 1986661051, 2177026350, 2456956037, 2730485921, 2820302411,
   3259730800, 3345764771, 3516065817, 3600352804, 4094571909, 275423344,
   430227734, 506948616, 659060556, 883997877, 958139571, 1322822218,
   1537002063, 1747873779, 1955562222, 2024104815, 2227730452, 2361852424,
   2428436474, 2756734187, 3204031479, 3329325298]

/-- The SHA-256 initial hash state. -/
def sha256H0 : List Nat :=
  [1779033703, 3144134277, 1013904242, 2773480762,
   1359893119, 2600822924, 528734635, 1541459225]

def ssig0 (x : Nat) : Nat := (rotr 7 x) ^^^ (rotr 18 x) ^^^ (shr 3 x)

def ssig1 (x : Nat) : Nat := (rotr 17 x) ^^^ (rotr 19 x) ^^^ (shr 10 x)

def bsig0 (x : Nat) : Nat := (rotr 2 x) ^^^ (rotr 13 x) ^^^ (rotr 22 x)

def bsig1 (x : Nat) : Nat := (rotr 6 x) ^^^ (rotr 11 x) ^^^ (rotr 25 x)

/-- Extend the 16 message words to 64, keeping the list reversed while building. -/
def schedRev (rws : List Nat) : Nat → List Nat
  | 0 => rws
  | n + 1 =>
    let t2 := rws.getD 1 0
    let t7 := rws.getD 6 0
    let t15 := rws.getD 14 0
    let t16 := rws.getD 15 0
    schedRev (w32 (ssig1 t2 + t7 + ssig0 t15 + t16) :: rws) n

def schedule (ws : List Nat) : List Nat := (schedRev ws.reverse 48).reverse

/-- The eight 32-bit working variables of the SHA-256 compression loop. -/
structure Sha2St where
  a : Nat
  b : Nat
  c : Nat
  d : Nat
  e : Nat
  f : Nat
  g : Nat
  h : Nat

/-- One SHA-256 round, consuming a (round constant, message word) pair. -/
def sha256Round (s : Sha2St) (kw : Nat × Nat) : Sha2St :=
  let t1 := w32 (s.h + bsig1 s.e + ((s.e &&& s.f) ^^^ (bnot32 s.e &&& s.g)) + kw.1 + kw.2)
  let t2 := w32 (bsig0 s.a + ((s.a &&& s.b) ^^^ (s.a &&& s.c) ^^^ (s.b &&& s.c)))
  ⟨w32 (t1 + t2), s.a, s.b, s.c, w32 (s.d + t1), s.e, s.f, s.g⟩

/-- Compress one 16-word block into the running hash state. -/
def sha256Compress (hs : List Nat) (block : List Nat) : List Nat :=
  let ws := schedule block
  let s0 : Sha2St := ⟨hs.getD 0 0, hs.getD 1 0, hs.getD 2 0, hs.getD 3 0,
                      hs.getD 4 0, hs.getD 5 0, hs.getD 6 0, hs.getD 7 0⟩
  let s := (sha256K.zip ws).foldl sha256Round s0
  [w32 (hs.getD 0 0 + s.a), w32 (hs.getD 1 0 + s.b), w32 (hs.getD 2 0 + s.c),
   w32 (hs.getD 3 0 + s.d), w32 (hs.getD 4 0 + s.e), w32 (hs.getD 5 0 + s.f),
   w32 (hs.getD 6 0 + s.g), w32 (hs.getD 7 0 + s.h)]

/-- Big-endian bytes to a number. -/
def beWord (bs : List Nat) : Nat := bs.foldl (fun a b => a * 256 + b) 0

/-- Group bytes into big-endian 32-bit words. -/
def toWords : List Nat → List Nat
  | b0 :: b1 :: b2 :: b3 :: rest => beWord [b0, b1, b2, b3] :: toWords rest
  | _ => []

/-- Split the padded message into 64-byte blocks (fuel-driven so that the
kernel can evaluate it; the fuel `bs.length` always suffices). -/
def toBlocksF : Nat → List Nat → List (List Nat)
  | 0, bs => [toWords bs]
  | fuel + 1, bs =>
    if bs.length ≤ 64 then [toWords bs]
    else toWords (bs.take 64) :: toBlocksF fuel (bs.drop 64)

def toBlocks (bs : List Nat) : List (List Nat) := toBlocksF bs.length bs

/-- The 8-byte big-endian rendering of a 64-bit value. -/
def be64 (n : Nat) : List Nat :=
  [n / 2 ^ 56 % 256, n / 2 ^ 48 % 256, n / 2 ^ 40 % 256, n / 2 ^ 32 % 256,
   n / 2 ^ 24 % 256, n / 2 ^ 16 % 256, n / 2 ^ 8 % 256, n % 256]

/-- SHA-256 padding: `0x80`, zeros to 56 mod 64, then the bit length. -/
def sha256Pad (msg : List Nat) : List Nat :=
  let l := msg.length
  msg ++ 0x80 :: List.replicate ((119 - l % 64) % 64) 0 ++ be64 (8 * l)

def wordBytes (w : Nat) : List Nat :=
  [w / 2 ^ 24 % 256, w / 2 ^ 16 % 256, w / 2 ^ 8 % 256, w % 256]

/-- SHA-256 digest (32 bytes) of a byte string. -/
def sha256 (msg : List Nat) : List Nat :=
  ((toBlocks (sha256Pad msg)).foldl sha256Compress sha256H0).flatMap wordBytes

/-! ## Varint / length-delimited primitives (the `prost_amino` crate)

`prost_amino` is a fork of `prost`; it writes protobuf base-128 varints and
skips any scalar field holding its proto3 default value (0 / empty). -/

/-- Base-128 little-endian-group varint, fuel-driven (`fuel = n` suffices
since `n / 128 < n` for `n ≥ 128`). -/
def varintF : Nat → Nat → List Nat
  | 0, n => [n % 128]
  | fuel + 1, n => if n < 128 then [n] else (n % 128 + 128) :: varintF fuel (n / 128)

/-- `prost_amino::encoding::encode_varint` / `encode_length_delimiter`. -/
def varint (n : Nat) : List Nat := varintF n n

/-- Two's-complement 64-bit representative of an integer (how protobuf
varint-encodes `int64`, and sign-extended `int32`, values). -/
def u64rep (i : Int) : Nat := (i % 18446744073709551616).toNat

/-- 2^64: the `u64` modulus, written out once. -/
def U64 : Nat := 18446744073709551616

/-- The key (tag ‖ wire type) byte of a protobuf field; all fields used
here have numbers below 16, so the key is a single byte. -/
def pbKey (tag wire : Nat) : List Nat := [tag * 8 + wire]

/-- A `uint64`/`uint32` varint field; skipped at its default 0. -/
def pbUint (tag : Nat) (v : Nat) : List Nat :=
  if v = 0 then [] else pbKey tag 0 ++ varint v

/-- An `int64` (or sign-extended `int32`) varint field; skipped at 0. -/
def pbInt (tag : Nat) (i : Int) : List Nat :=
  if i = 0 then [] else pbKey tag 0 ++ varint (u64rep i)

/-- A `bytes`/`string` field; skipped when empty. -/
def pbBytes (tag : Nat) (b : List Nat) : List Nat :=
  if b = [] then [] else pbKey tag 2 ++ varint b.length ++ b

/-- The 8-byte little-endian rendering of a 64-bit value. -/
def le64 (n : Nat) : List Nat :=
  [n % 256, n / 2 ^ 8 % 256, n / 2 ^ 16 % 256, n / 2 ^ 24 % 256,
   n / 2 ^ 32 % 256, n / 2 ^ 40 % 256, n / 2 ^ 48 % 256, n / 2 ^ 56 % 256]

/-- An `sfixed64` field; skipped at 0. -/
def pbSfixed64 (tag : Nat) (i : Int) : List Nat :=
  if i = 0 then [] else pbKey tag 1 ++ le64 (u64rep i)

/-- An embedded-message field: present (even when the body is empty)
exactly when the `Option` is `some`. -/
def pbEmbed (tag : Nat) : Option (List Nat) → List Nat
  | none => []
  | some body => pbKey tag 2 ++ varint body.length ++ body

/-- `AminoMessage::bytes_vec_length_delimited`: the message body behind one
outer length prefix. -/
def lengthDelimited (body : List Nat) : List Nat := varint body.length ++ body

/-! ## Basic domain types

`Hash` (src/types/hash.rs) is `Sha256([u8; 32])`; its payload is kept as a
byte list.  `account::Id` (src/types/account.rs) is `[u8; 20]` with
lexicographic `Ord`; we represent it as the big-endian `Nat` value of those
20 bytes, on which `Nat` order coincides with the byte-wise order, and
recover the bytes where an encoder needs them.  `Time` (src/types/time.rs,
chrono nanosecond UTC) and `SystemTime` are `Int` nanoseconds since the
epoch; `Duration` is `Nat` nanoseconds. -/

/-- `Hash::Sha256([u8; 32])`. -/
inductive Hash where
  | sha256H (bytes : List Nat)
deriving DecidableEq, Repr

/-- `Hash::as_bytes`. -/
def Hash.asBytes : Hash → List Nat
  | .sha256H bs => bs

/-! ## Error kinds (`src/errors.rs`) -/

/-- The `Kind` enumeration of `src/errors.rs`.  Structured payloads are kept
(hashes, heights, powers); `SystemTime` payloads become `Int` nanosecond
instants, and the `trust_threshold: String` debug rendering in
`InsufficientSignedVotingPower` is kept as the underlying fraction. -/
inductive Kind where
  | expired (expiresAt : Int) (now : Int)
  | durationOutOfRange
  | nonIncreasingHeight (got expected : Nat)
  | nonIncreasingTime
  | invalidValidatorSet (headerValHash expectedValHash : Hash)
  | invalidNextValidatorSet (headerNextValHash expectedNextValHash : Hash)
  | invalidCommitValue (headerHash commitHash : Hash)
  | invalidCommit (total signed : Nat)
  | insufficientSignedVotingPower (total signed numerator denominator : Nat)
  | invalidTrustThreshold (numerator denominator : Nat)
  | implementationSpecific
  | outOfRange
  | parse
  | invalidKey
  | lengthErr
deriving DecidableEq, Repr

/-- The 20 big-endian bytes of an `account::Id` (its `as_bytes`). -/
def idBytes (n : Nat) : List Nat :=
  [n / 2 ^ 152 % 256, n / 2 ^ 144 % 256, n / 2 ^ 136 % 256, n / 2 ^ 128 % 256,
   n / 2 ^ 120 % 256, n / 2 ^ 112 % 256, n / 2 ^ 104 % 256, n / 2 ^ 96 % 256,
   n / 2 ^ 88 % 256, n / 2 ^ 80 % 256, n / 2 ^ 72 % 256, n / 2 ^ 64 % 256,
   n / 2 ^ 56 % 256, n / 2 ^ 48 % 256, n / 2 ^ 40 % 256, n / 2 ^ 32 % 256,
   n / 2 ^ 24 % 256, n / 2 ^ 16 % 256, n / 2 ^ 8 % 256, n % 256]

/-- `PublicKey` (src/types/pubkey.rs is not in the snapshot; modelled from
the spec: a tagged union of an Ed25519 and a Secp256k1 key, exposing its raw
bytes, with `ed25519()` yielding `Some` only for the first variant). -/
inductive PublicKey where
  | ed25519 (bytes : List Nat)
  | secp256k1 (bytes : List Nat)
deriving DecidableEq, Repr

def PublicKey.asBytes : PublicKey → List Nat
  | .ed25519 bs => bs
  | .secp256k1 bs => bs

/-- `PublicKey::ed25519()`. -/
def PublicKey.ed25519Key : PublicKey → Option (List Nat)
  | .ed25519 bs => some bs
  | .secp256k1 _ => none

/-- `account::Id::from(ed25519 pk)`: the first 20 bytes of `SHA256(pk)`,
read back as the `Nat` account id. -/
def accountIdOfEd25519 (pk : List Nat) : Nat := beWord ((sha256 pk).take 20)

/-- `block::parts::Header` (src/types/block/parts.rs). -/
structure PartsHeader where
  total : Nat
  hash : Hash
deriving DecidableEq, Repr

/-- `block::id::Id` (src/types/block/id.rs is not in the snapshot; modelled
from the spec: `{ hash: Hash, parts: Option<PartSetHeader> }`). -/
structure BlockId where
  hash : Hash
  parts : Option PartsHeader
deriving DecidableEq, Repr

/-- `header::Version` (src/types/block/header.rs). -/
structure Version where
  block : Nat
  app : Nat
deriving DecidableEq, Repr

/-- `block::header::Header` (src/types/block/header.rs).  `chain::Id` is its
byte string; `Height` is its `u64` value; `Time` is `Int` nanoseconds. -/
structure Header where
  version : Version
  chain_id : List Nat
  height : Nat
  time : Int
  last_block_id : Option BlockId
  last_commit_hash : Option Hash
  data_hash : Option Hash
  validators_hash : Hash
  next_validators_hash : Hash
  consensus_hash : Hash
  app_hash : List Nat
  last_results_hash : Option Hash
  evidence_hash : Option Hash
  proposer_address : Nat
deriving DecidableEq, Repr

/-- `CommitSig` (src/types/block/commit_sigs.rs is not in the snapshot;
modelled from the spec: `Absent` carries no validator data, `Commit` and
`Nil` carry address, timestamp and signature). -/
inductive CommitSig where
  | blockIdFlagAbsent
  | blockIdFlagCommit (validator_address : Nat) (timestamp : Int) (signature : List Nat)
  | blockIdFlagNil (validator_address : Nat) (timestamp : Int) (signature : List Nat)
deriving DecidableEq, Repr

/-- `Commit` (src/types/block/commit.rs); `CommitSigs` is its list. -/
structure Commit where
  height : Nat
  round : Nat
  block_id : BlockId
  signatures : List CommitSig
deriving DecidableEq, Repr

/-- `LightSignedHeader` (src/types/block/commit.rs). -/
structure LightSignedHeader where
  header : Header
  commit : Commit
deriving DecidableEq, Repr

/-- The generic `SignedHeader<C, H>` wrapper (src/types/block/commit.rs),
specialised to the concrete light client instance
`C = LightSignedHeader`, `H = Header` (see `verify_single_light` in
src/lib.rs and `convert_to_signed_header`). -/
structure SignedHeader where
  commit : LightSignedHeader
  header : Header
deriving DecidableEq, Repr

/-! ## Amino canonical encodings (src/types/amino/mod.rs)

Field numbers are assigned in declaration order by `prost_amino_derive`. -/

/-- `TimeMsg { seconds: int64 = 1, nanos: int32 = 2 }`. -/
structure TimeMsg where
  seconds : Int
  nanos : Int
deriving DecidableEq, Repr

def encTimeMsg (t : TimeMsg) : List Nat := pbInt 1 t.seconds ++ pbInt 2 t.nanos

/-- `TimeMsg::from(Time)`: whole seconds and subsecond nanoseconds of the
duration since the epoch (the source unwraps and panics for pre-epoch
times, which are outside the modelled domain). -/
def timeMsgOfTime (t : Int) : TimeMsg := ⟨t / 1000000000, t % 1000000000⟩

/-- `ConsensusVersion { block: uint64 = 1, app: uint64 = 2 }`,
`From<&header::Version>`. -/
def encConsensusVersion (v : Version) : List Nat := pbUint 1 v.block ++ pbUint 2 v.app

/-- `u64 as i64` (wrapping cast, as in `height.value() as i64`). -/
def toI64 (n : Nat) : Int :=
  if n % U64 < 2 ^ 63 then (n % U64 : Int) else (n % U64 : Int) - (U64 : Int)

/-- amino `PartsSetHeader { total: int64 = 1, hash: bytes = 2 }`,
built `From<&parts::Header>` (`total as i64`, hash bytes). -/
def encPartsSetHeader (p : PartsHeader) : List Nat :=
  pbInt 1 (toI64 p.total) ++ pbBytes 2 p.hash.asBytes

/-- amino `BlockId { hash: bytes = 1, parts_header: message = 2 }`,
built `From<&block::id::Id>`. -/
def encBlockIdMsg (b : BlockId) : List Nat :=
  pbBytes 1 b.hash.asBytes ++ pbEmbed 2 (b.parts.map encPartsSetHeader)

/-- amino `CanonicalPartSetHeader { hash: bytes = 1, total: int64 = 2 }`
(note the field order differs from `PartsSetHeader`). -/
def encCanonicalPartSetHeader (p : PartsHeader) : List Nat :=
  pbBytes 1 p.hash.asBytes ++ pbInt 2 (toI64 p.total)

/-- amino `CanonicalBlockId { hash: bytes = 1, parts_header: message = 2 }`. -/
def encCanonicalBlockId (b : BlockId) : List Nat :=
  pbBytes 1 b.hash.asBytes ++ pbEmbed 2 (b.parts.map encCanonicalPartSetHeader)

/-- `CanonicalVote` (src/types/amino/mod.rs): `vote_type: uint32 = 1`,
`height: sfixed64 = 2`, `round: sfixed64 = 3`, `block_id: message = 4`,
`timestamp: message = 5`, `chain_id: string = 6`.  The `BlockId`/`TimeMsg`
payloads keep their structured form here; encoding happens in
`encCanonicalVote`. -/
structure CanonicalVote where
  vote_type : Nat
  height : Int
  round : Int
  block_id : Option BlockId
  timestamp : Option TimeMsg
  chain_id : List Nat
deriving DecidableEq, Repr

def encCanonicalVote (v : CanonicalVote) : List Nat :=
  pbUint 1 v.vote_type ++ pbSfixed64 2 v.height ++ pbSfixed64 3 v.round ++
  pbEmbed 4 (v.block_id.map encCanonicalBlockId) ++
  pbEmbed 5 (v.timestamp.map encTimeMsg) ++ pbBytes 6 v.chain_id

/-! ## Votes (src/types/vote/vote.rs, src/types/amino/mod.rs) -/

/-- `vote::Type` (Prevote = 1, Precommit = 2). -/
inductive VoteType where
  | prevote
  | precommit
deriving DecidableEq, Repr

/-- `Type::to_u32`. -/
def VoteType.toU32 : VoteType → Nat
  | .prevote => 1
  | .precommit => 2

/-- `vote::Vote` (src/types/vote/vote.rs). -/
structure Vote where
  vote_type : VoteType
  height : Nat
  round : Nat
  block_id : Option BlockId
  timestamp : Int
  validator_address : Nat
  validator_index : Nat
  signature : List Nat
deriving DecidableEq, Repr

/-- amino `Vote` (src/types/amino/mod.rs): the wire form of a vote. -/
structure AminoVote where
  vote_type : Nat
  height : Int
  round : Int
  block_id : Option BlockId
  timestamp : Option TimeMsg
  validator_address : List Nat
  validator_index : Int
  signature : List Nat
deriving DecidableEq, Repr

/-- `impl From<&vote::Vote> for amino::Vote` (the `as i64` casts wrap). -/
def aminoVoteOfVote (v : Vote) : AminoVote :=
  { vote_type := v.vote_type.toU32
    height := toI64 v.height
    round := toI64 v.round
    block_id := v.block_id
    timestamp := some (timeMsgOfTime v.timestamp)
    validator_address := idBytes v.validator_address
    validator_index := toI64 v.validator_index
    signature := v.signature }

/-- `CanonicalVote::new(vote, chain_id)`: an absent timestamp is replaced by
the year-1-AD sentinel. -/
def CanonicalVote.new (vote : AminoVote) (chain_id : List Nat) : CanonicalVote :=
  { vote_type := vote.vote_type
    height := vote.height
    round := vote.round
    block_id := vote.block_id
    timestamp :=
      match vote.timestamp with
      | none => some ⟨-62135596800, 0⟩
      | some t => some t
    chain_id := chain_id }

/-- `SignedVote` (src/types/vote/vote.rs). -/
structure SignedVote where
  vote : CanonicalVote
  validator_address : Nat
  signature : List Nat
deriving DecidableEq, Repr

/-- `SignedVote::new`. -/
def SignedVote.new (vote : AminoVote) (chain_id : List Nat) (validator_address : Nat)
    (signature : List Nat) : SignedVote :=
  { vote := CanonicalVote.new vote chain_id
    validator_address := validator_address
    signature := signature }

/-- `SignedVote::validator_id`. -/
def SignedVote.validator_id (sv : SignedVote) : Nat := sv.validator_address

/-- `SignedVote::sign_bytes`: the length-delimited canonical vote bytes. -/
def SignedVote.sign_bytes (sv : SignedVote) : List Nat :=
  lengthDelimited (encCanonicalVote sv.vote)

/-! ## Merkle tree (src/merkle_tree.rs) -/

/-- `leaf_hash`: `SHA256(0x00 ‖ bytes)`. -/
def leafHash (bytes : List Nat) : List Nat := sha256 (0x00 :: bytes)

/-- `inner_hash`: `SHA256(0x01 ‖ left ‖ right)`. -/
def innerHash (left right : List Nat) : List Nat := sha256 (0x01 :: (left ++ right))

/-- Ceiling base-2 logarithm, fuel-driven (`fuel = n` suffices since
`(n + 1) / 2 < n` for `n ≥ 2`); agrees with `Nat.clog 2`
(see `clog2_eq_clog`). -/
def clog2F : Nat → Nat → Nat
  | 0, _ => 0
  | fuel + 1, n => if n ≤ 1 then 0 else clog2F fuel ((n + 1) / 2) + 1

def clog2 (n : Nat) : Nat := clog2F n n

/-- Rust `usize::next_power_of_two`: the least power of two `≥ n`
(and 1 for `n ≤ 1`), here via the ceiling base-2 logarithm. -/
def nextPowerOfTwo (n : Nat) : Nat := 2 ^ clog2 n

/-- `get_split_point`: the largest power of two strictly below `length`.
The source panics for lengths 0 and 1; those are unreachable from
`simple_hash_from_byte_slices_inner` and map to the junk value 0 here. -/
def getSplitPoint (length : Nat) : Nat :=
  match length with
  | 0 => 0
  | 1 => 0
  | 2 => 1
  | _ => nextPowerOfTwo length / 2

/-- `simple_hash_from_byte_slices_inner`, fuel-driven so the kernel can
evaluate it (`fuel = length` suffices: the split point `k` satisfies
`0 < k < length`, so both recursive calls shrink the list). -/
def simpleHashF : Nat → List (List Nat) → List Nat
  | _, [] => List.replicate 32 0
  | _, [x] => leafHash x
  | 0, _ => List.replicate 32 0
  | fuel + 1, l =>
    let k := getSplitPoint l.length
    innerHash (simpleHashF fuel (l.take k)) (simpleHashF fuel (l.drop k))

/-- `simple_hash_from_byte_vectors`. -/
def simpleHashFromByteVectors (byteVecs : List (List Nat)) : List Nat :=
  simpleHashF byteVecs.length byteVecs

/-! ## Validators (src/types/validator.rs) -/

/-- The external `ed25519_dalek` primitive, as an oracle: `sigOk` refines
which 64-byte strings `Signature::try_from` accepts (version-dependent
canonicity checks), `verify` is `PublicKey::verify` on (key, message,
signature). -/
structure Ed25519Oracle where
  sigOk : List Nat → Bool
  verify : List Nat → List Nat → List Nat → Bool

/-- `validator::Info` (src/types/validator.rs); `voting_power` is the
`u64` value of its `Power`, `proposer_priority` the optional `i64`. -/
structure Info where
  address : Nat
  pub_key : PublicKey
  voting_power : Nat
  proposer_priority : Option Int
deriving DecidableEq, Repr

/-- `Validator::power` for `Info`. -/
def Info.power (i : Info) : Nat := i.voting_power

/-- `Info::verify_signature`: only an Ed25519 key can verify, the raw
signature must parse as a dalek `Signature` (64 bytes, `sigOk`), and any
parse failure yields `false`, never an error. -/
def Info.verify_signature (o : Ed25519Oracle) (i : Info)
    (sign_bytes signature : List Nat) : Bool :=
  match i.pub_key.ed25519Key with
  | some pk =>
    if signature.length = 64 && o.sigOk signature then o.verify pk sign_bytes signature
    else false
  | none => false

/-- The amino prefix that `prost_amino` derives for the registered name
`tendermint/PubKeyEd25519`. -/
def ed25519AminoPrefix : List Nat := [0x16, 0x24, 0xDE, 0x64]

/-- `InfoHashable` encoding (`Validator::hash_bytes` for `Info`): field 1 is
the amino-prefixed public key bytes, field 2 the voting power varint;
address and proposer priority are excluded. -/
def Info.hash_bytes (i : Info) : List Nat :=
  let pk := i.pub_key.asBytes
  let inner := ed25519AminoPrefix ++ varint pk.length ++ pk
  pbKey 1 2 ++ varint inner.length ++ inner ++ pbUint 2 i.voting_power

/-- `validator::Set` (src/types/validator.rs), at the light client's
concrete validator type `Info` (`LightValidatorSet` in src/lib.rs). -/
structure Set where
  validators : List Info
deriving DecidableEq, Repr

/-- `Vec::dedup_by(|a, b| a.address() == b.address())`: removes all but the
first of *consecutive* elements sharing an address (each element is
compared with the last retained one). -/
def dedupRun (prev : Info) : List Info → List Info
  | [] => []
  | y :: ys => if y.address = prev.address then dedupRun prev ys else y :: dedupRun y ys

def dedupByAddr : List Info → List Info
  | [] => []
  | x :: xs => x :: dedupRun x xs

/-- `vals.sort_by(|v1, v2| v1.address().cmp(&v2.address()))`: Rust's stable
sort, modelled by the (stable) insertion sort at the same order. -/
def sortByAddr (vals : List Info) : List Info :=
  List.insertionSort (fun v1 v2 => v1.address ≤ v2.address) vals

/-- `Set::new`: dedup (consecutive, by address), then sort by address. -/
def Set.new (vals : List Info) : Set := ⟨sortByAddr (dedupByAddr vals)⟩

/-- `ValidatorSet::hash` for `Set`: the Merkle root of the members'
`hash_bytes`. -/
def Set.hash (s : Set) : Hash :=
  Hash.sha256H (simpleHashFromByteVectors (s.validators.map Info.hash_bytes))

/-- `ValidatorSet::total_power` for `Set`: a plain `u64` fold of `+`, which
wraps on overflow (release semantics; debug builds would panic). -/
def Set.total_power (s : Set) : Nat :=
  s.validators.foldl (fun total val_info => (total + val_info.voting_power) % U64) 0

/-- `ValidatorSet::validator` for `Set`: first member with the address. -/
def Set.validator (s : Set) (val_id : Nat) : Option Info :=
  s.validators.find? (fun val => val.address = val_id)

/-- Keep the last occurrence of each address (the effect of collecting into
a `HashMap` keyed by address, later inserts overwriting earlier ones). -/
def keepLastByAddr : List Info → List Info
  | [] => []
  | v :: rest =>
    if rest.any (fun w => w.address = v.address) then keepLastByAddr rest
    else v :: keepLastByAddr rest

/-- `ValidatorSet::intersect` for `Set`: left-hand validators whose address
also occurs on the right, re-normalised through `Set::new`.  The source
drains a `HashMap` in arbitrary order; since the retained addresses are
unique, `Set::new`'s sort makes the result order-independent, and the
left-to-right order used here is one admissible drain order. -/
def Set.intersect (s other : Set) : Set :=
  Set.new ((keepLastByAddr s.validators).filter
    (fun v => other.validators.any (fun w => w.address = v.address)))

/-- `ValidatorSet::number_of_validators` for `Set`. -/
def Set.number_of_validators (s : Set) : Nat := s.validators.length

/-! ## Commit analysis (src/types/block/commit.rs) -/

/-- The loop body of `non_absent_votes`, with the enumeration index
explicit. -/
def nonAbsentVotesFrom (commit : Commit) : Nat → List CommitSig → List Vote
  | _, [] => []
  | i, .blockIdFlagAbsent :: rest => nonAbsentVotesFrom commit (i + 1) rest
  | i, .blockIdFlagCommit validator_address timestamp signature :: rest =>
    { vote_type := .precommit
      height := commit.height
      round := commit.round
      block_id := some commit.block_id
      timestamp := timestamp
      validator_address := validator_address
      validator_index := i
      signature := signature } :: nonAbsentVotesFrom commit (i + 1) rest
  | i, .blockIdFlagNil validator_address timestamp signature :: rest =>
    { vote_type := .precommit
      height := commit.height
      round := commit.round
      block_id := none
      timestamp := timestamp
      validator_address := validator_address
      validator_index := i
      signature := signature } :: nonAbsentVotesFrom commit (i + 1) rest

/-- `non_absent_votes`: every non-Absent commit signature as a precommit
`Vote` (a `Commit` signature endorses the commit's block id, a `Nil`
signature endorses no block id). -/
def nonAbsentVotes (commit : Commit) : List Vote :=
  nonAbsentVotesFrom commit 0 commit.signatures

/-- `LightSignedHeader::signed_votes`: each non-absent vote wrapped with
its canonical sign bytes over this header's chain id. -/
def LightSignedHeader.signed_votes (sh : LightSignedHeader) : List SignedVote :=
  (nonAbsentVotes sh.commit).map (fun vote =>
    SignedVote.new (aminoVoteOfVote vote) sh.header.chain_id
      vote.validator_address vote.signature)

/-- The loop of `voting_power_in`: walk the signed votes in order, skip
votes from unknown validators, fail on a duplicate counted validator or a
signature that does not verify, and accumulate the `u64` power sum. -/
def votingPowerLoop (o : Ed25519Oracle) (validators : Set) :
    List SignedVote → List Nat → Nat → Except Kind Nat
  | [], _, signed_power => .ok signed_power
  | vote :: rest, seen_votes, signed_power =>
    match validators.validator vote.validator_id with
    | none => votingPowerLoop o validators rest seen_votes signed_power
    | some val =>
      if seen_votes.contains vote.validator_id then .error .implementationSpecific
      else if Info.verify_signature o val vote.sign_bytes vote.signature then
        votingPowerLoop o validators rest (vote.validator_id :: seen_votes)
          ((signed_power + val.power) % U64)
      else .error .implementationSpecific

/-- `ProvableCommit::voting_power_in` for `LightSignedHeader`.  The trait
method receives a chain id from the caller, but this implementation reads
the chain id from its own header (see `signed_votes`), so no chain id
parameter appears here. -/
def LightSignedHeader.voting_power_in (o : Ed25519Oracle) (sh : LightSignedHeader)
    (validators : Set) : Except Kind Nat :=
  votingPowerLoop o validators sh.signed_votes [] 0

/-- The signer loop of `LightSignedHeader::validate`: every non-Absent
signature's address must be present in the validator set. -/
def validateSigners (vals : Set) : List CommitSig → Except Kind Unit
  | [] => .ok ()
  | .blockIdFlagAbsent :: rest => validateSigners vals rest
  | .blockIdFlagCommit validator_address _ _ :: rest =>
    if vals.validator validator_address = none then .error .implementationSpecific
    else validateSigners vals rest
  | .blockIdFlagNil validator_address _ _ :: rest =>
    if vals.validator validator_address = none then .error .implementationSpecific
    else validateSigners vals rest

/-- `ProvableCommit::validate` for `LightSignedHeader`: non-empty signature
list, positional length match with the validator list, and no unknown
non-Absent signer. -/
def LightSignedHeader.validate (sh : LightSignedHeader) (vals : Set) : Except Kind Unit :=
  if sh.commit.signatures.length = 0 then .error .implementationSpecific
  else if sh.commit.signatures.length ≠ vals.validators.length then .error .implementationSpecific
  else validateSigners vals sh.commit.signatures

/-- `ProvableCommit::header_hash` for `LightSignedHeader`. -/
def LightSignedHeader.header_hash (sh : LightSignedHeader) : Hash :=
  sh.commit.block_id.hash

/-! ## Header hash (src/types/block/header.rs) -/

/-- `bytes_enc`: a length delimiter followed by the raw bytes. -/
def bytesEnc (bytes : List Nat) : List Nat := varint bytes.length ++ bytes

/-- `encode_hash`. -/
def encodeHash (h : Hash) : List Nat := bytesEnc h.asBytes

/-- `Header::hash`: the Merkle root of the 14 canonically encoded fields,
in declaration order; absent optionals serialise to the empty leaf. -/
def Header.hash (h : Header) : Hash :=
  Hash.sha256H (simpleHashFromByteVectors
    [bytesEnc (encConsensusVersion h.version),
     bytesEnc h.chain_id,
     varint h.height,
     bytesEnc (encTimeMsg (timeMsgOfTime h.time)),
     (h.last_block_id.map (fun id => bytesEnc (encBlockIdMsg id))).getD [],
     (h.last_commit_hash.map encodeHash).getD [],
     (h.data_hash.map encodeHash).getD [],
     encodeHash h.validators_hash,
     encodeHash h.next_validators_hash,
     encodeHash h.consensus_hash,
     bytesEnc h.app_hash,
     (h.last_results_hash.map encodeHash).getD [],
     (h.evidence_hash.map encodeHash).getD [],
     bytesEnc (idBytes h.proposer_address)])

/-! ## Trusted state and trust threshold (src/types/trusted.rs) -/

/-- `TrustThresholdFraction { numerator, denominator }`. -/
structure TrustThresholdFraction where
  numerator : Nat
  denominator : Nat
deriving DecidableEq, Repr

/-- `TrustThresholdFraction::new`: valid iff `1/3 ≤ num/den ≤ 1`. -/
def TrustThresholdFraction.new (numerator denominator : Nat) :
    Except Kind TrustThresholdFraction :=
  if numerator ≤ denominator ∧ 0 < denominator ∧ denominator ≤ 3 * numerator then
    .ok ⟨numerator, denominator⟩
  else .error (.invalidTrustThreshold numerator denominator)

/-- `TrustThreshold::minimum_power_to_be_trusted` for the fraction:
`total * numerator / denominator + 1` in `u64` arithmetic — both the
multiplication and the increment wrap at 2^64. -/
def TrustThresholdFraction.minimum_power_to_be_trusted
    (th : TrustThresholdFraction) (total_voting_power : Nat) : Nat :=
  (total_voting_power * th.numerator % U64 / th.denominator + 1) % U64

/-- `TrustThreshold::is_enough_power` for the fraction. -/
def TrustThresholdFraction.is_enough_power (th : TrustThresholdFraction)
    (signed_voting_power total_voting_power : Nat) : Bool :=
  th.minimum_power_to_be_trusted total_voting_power ≤ signed_voting_power

/-- `TrustedState` (src/types/trusted.rs), at the concrete light client
instance: the last header (height h-1) and the validators at height h. -/
structure TrustedState where
  last_header : SignedHeader
  validators : Set
deriving DecidableEq, Repr

/-- `TrustedState::new`. -/
def TrustedState.new (last_header : SignedHeader) (validators : Set) : TrustedState :=
  ⟨last_header, validators⟩

/-! ## The verification engine (src/verification.rs), specialised to the
concrete instance `H = Header`, `C = LightSignedHeader`,
`L = TrustThresholdFraction`, `V = Info` (see `verify_single_light`). -/

/-- `is_within_trust_period`: expired when `header_time + period ≤ now`,
and the header must not lie in the future. -/
def is_within_trust_period (last_header : Header) (trusting_period : Nat)
    (now : Int) : Except Kind Unit :=
  if last_header.time + trusting_period ≤ now then
    .error (.expired (last_header.time + trusting_period) now)
  else if ¬ last_header.time ≤ now then .error .durationOutOfRange
  else .ok ()

/-- `validate` (verification.rs): header/validator-hash binding,
optional next-validator binding, commit-value binding, then the
implementation-specific commit checks. -/
def validate (header : Header) (commit : LightSignedHeader) (vals : Set)
    (possible_next_vals : Option Set) : Except Kind Unit :=
  if header.validators_hash ≠ vals.hash then
    .error (.invalidValidatorSet header.validators_hash vals.hash)
  else
    match possible_next_vals with
    | some next_vals =>
      if header.next_validators_hash ≠ next_vals.hash then
        .error (.invalidNextValidatorSet header.next_validators_hash next_vals.hash)
      else
        if header.hash ≠ commit.header_hash then
          .error (.invalidCommitValue header.hash commit.header_hash)
        else commit.validate vals
    | none =>
      if header.hash ≠ commit.header_hash then
        .error (.invalidCommitValue header.hash commit.header_hash)
      else commit.validate vals

/-- `verify_commit_full`: +2/3 of the given validator set must have signed,
with both sides of `signed * 3 > total * 2` computed in wrapping `u64`
arithmetic.  The generic code passes `header.chain_id()` to
`voting_power_in`; the concrete implementation reads the chain id off its
own header, so the header argument is otherwise unused. -/
def verify_commit_full (o : Ed25519Oracle) (vals : Set) (_header : Header)
    (commit : LightSignedHeader) : Except Kind Unit :=
  match commit.voting_power_in o vals with
  | .error e => .error e
  | .ok signed_power =>
    if signed_power * 3 % U64 ≤ vals.total_power * 2 % U64 then
      .error (.invalidCommit vals.total_power signed_power)
    else .ok ()

/-- The height dispatch of `verify_single_inner` (`match
untrusted_height.cmp(&trusted_height.checked_add(1)...)`), written as the
equivalent comparison chain. -/
def heightDispatch (o : Ed25519Oracle) (trusted_state : TrustedState)
    (untrusted_sh : SignedHeader) (untrusted_vals : Set)
    (trust_threshold : TrustThresholdFraction) : Except Kind Unit :=
  if untrusted_sh.header.height < trusted_state.last_header.header.height + 1 then
    .error (.nonIncreasingHeight untrusted_sh.header.height
      (trusted_state.last_header.header.height + 1))
  else if untrusted_sh.header.height = trusted_state.last_header.header.height + 1 then
    if trusted_state.last_header.header.next_validators_hash
        ≠ untrusted_sh.header.validators_hash then
      .error (.invalidValidatorSet untrusted_sh.header.validators_hash
        trusted_state.last_header.header.next_validators_hash)
    else .ok ()
  else
    match untrusted_sh.commit.voting_power_in o
        (trusted_state.validators.intersect untrusted_vals) with
    | .error e => .error e
    | .ok signed_power =>
      if signed_power < trust_threshold.minimum_power_to_be_trusted
          trusted_state.validators.total_power then
        .error (.insufficientSignedVotingPower trusted_state.validators.total_power
          signed_power trust_threshold.numerator trust_threshold.denominator)
      else .ok ()

/-- `verify_single_inner`: validation, monotonic time, height dispatch,
then full commit verification. -/
def verify_single_inner (o : Ed25519Oracle) (trusted_state : TrustedState)
    (untrusted_sh : SignedHeader) (untrusted_vals untrusted_next_vals : Set)
    (trust_threshold : TrustThresholdFraction) : Except Kind Unit :=
  match validate untrusted_sh.header untrusted_sh.commit untrusted_vals
      (some untrusted_next_vals) with
  | .error e => .error e
  | .ok _ =>
    if untrusted_sh.header.time ≤ trusted_state.last_header.header.time then
      .error .nonIncreasingTime
    else
      match heightDispatch o trusted_state untrusted_sh untrusted_vals trust_threshold with
      | .error e => .error e
      | .ok _ =>
        verify_commit_full o untrusted_vals untrusted_sh.header untrusted_sh.commit

/-- `verify_single`: expiry of the trusted state, the inner verification,
and on success the new trusted state built from the untrusted header and
next validators. -/
def verify_single (o : Ed25519Oracle) (trusted_state : TrustedState)
    (untrusted_sh : SignedHeader) (untrusted_vals untrusted_next_vals : Set)
    (trust_threshold : TrustThresholdFraction) (trusting_period : Nat)
    (now : Int) : Except Kind TrustedState :=
  match is_within_trust_period trusted_state.last_header.header trusting_period now with
  | .error e => .error e
  | .ok _ =>
    match verify_single_inner o trusted_state untrusted_sh untrusted_vals
        untrusted_next_vals trust_threshold with
    | .error e => .error e
    | .ok _ => .ok (TrustedState.new untrusted_sh untrusted_next_vals)

/-- `validate_initial_signed_header_and_valset` (src/verification.rs). -/
def validate_initial_signed_header_and_valset (o : Ed25519Oracle)
    (untrusted_sh : SignedHeader) (untrusted_vals : Set) : Except Kind Unit :=
  match validate untrusted_sh.header untrusted_sh.commit untrusted_vals none with
  | .error e => .error e
  | .ok _ => verify_commit_full o untrusted_vals untrusted_sh.header untrusted_sh.commit

/-! ## Helper definitions for the statements, and concrete fixtures

The predicates here name the conditions the claim theorems quantify over;
the fixtures are the concrete inputs of the witnesses and counterexamples. -/

def pkCex1 : List Nat := List.replicate 32 11

def pkCex2 : List Nat := List.replicate 32 12

/-- A validator with voting power 2^63 at address 1. -/
def bigVal1 : Info :=
  { address := 1, pub_key := .ed25519 pkCex1,
    voting_power := 9223372036854775808, proposer_priority := none }

/-- A validator with voting power 2^63 at address 2. -/
def bigVal2 : Info :=
  { address := 2, pub_key := .ed25519 pkCex2,
    voting_power := 9223372036854775808, proposer_priority := none }

def pkC7a : List Nat := List.replicate 32 21

def pkC7b : List Nat := List.replicate 32 22

/-- A validator whose address is derived from its Ed25519 key (first 20
bytes of `SHA256(pk)`), as `Info::new` does. -/
def valC7a : Info :=
  { address := accountIdOfEd25519 pkC7a, pub_key := .ed25519 pkC7a,
    voting_power := 1, proposer_priority := none }

def valC7b : Info :=
  { address := accountIdOfEd25519 pkC7b, pub_key := .ed25519 pkC7b,
    voting_power := 1, proposer_priority := none }

/-- The signed votes whose validator is known to the set (the ones
`voting_power_in` counts; unknown signers are skipped). -/
def vpKnown (vals : Set) (svs : List SignedVote) : List SignedVote :=
  svs.filter (fun sv => (vals.validator sv.validator_id).isSome)

/-- The voting power a counted signed vote contributes. -/
def powOf (vals : Set) (sv : SignedVote) : Nat :=
  match vals.validator sv.validator_id with
  | some val => val.power
  | none => 0

/-- Whether a signed vote's signature verifies against its canonical sign
bytes (vacuously true for unknown signers, which are never checked). -/
def voteVerifies (o : Ed25519Oracle) (vals : Set) (sv : SignedVote) : Bool :=
  match vals.validator sv.validator_id with
  | some val => Info.verify_signature o val sv.sign_bytes sv.signature
  | none => true

/-- Whether a commit signature's signer (if any) is known to the set. -/
def commitSigKnown (vals : Set) : CommitSig → Bool
  | .blockIdFlagAbsent => true
  | .blockIdFlagCommit validator_address _ _ => (vals.validator validator_address).isSome
  | .blockIdFlagNil validator_address _ _ => (vals.validator validator_address).isSome

/-- The two expiry-stage error kinds. -/
def isExpiryErr : Kind → Bool
  | .expired _ _ => true
  | .durationOutOfRange => true
  | _ => false

/-- An oracle that accepts every parse and every signature: the modelling
of a run in which all dalek verifications succeed. -/
def oTrue : Ed25519Oracle := ⟨fun _ => true, fun _ _ _ => true⟩

/-- A well-formed 64-byte signature payload. -/
def sig64 : List Nat := List.replicate 64 0

/-- The chain id bytes of the test chain ("test"). -/
def chainT : List Nat := [116, 101, 115, 116]

/-- A validator from a key, its address derived as `Info::new` derives it. -/
def mkVal (pkByte : Nat) (power : Nat) : Info :=
  { address := accountIdOfEd25519 (List.replicate 32 pkByte)
    pub_key := .ed25519 (List.replicate 32 pkByte)
    voting_power := power
    proposer_priority := none }

def valW : Info := mkVal 1 1

def bigT1 : Info := mkVal 2 9223372036854775807

def valX1 : Info := mkVal 3 1

def valY1 : Info := mkVal 5 1

def bigY : Info := mkVal 6 9223372036854775807

/-- An untrusted header at the given height over the given validator set
(also its own next validators). -/
def mkHeader (height : Nat) (time : Int) (vals : Set) : Header :=
  { version := ⟨10, 1⟩, chain_id := chainT, height := height, time := time,
    last_block_id := none, last_commit_hash := none, data_hash := none,
    validators_hash := vals.hash, next_validators_hash := vals.hash,
    consensus_hash := Hash.sha256H (List.replicate 32 3), app_hash := [],
    last_results_hash := none, evidence_hash := none,
    proposer_address := valW.address }

def uvalsF1 : Set := Set.new [valW]

def headerF1 : Header := mkHeader 10 3 uvalsF1

def lshF1 : LightSignedHeader :=
  ⟨headerF1,
   { height := 10, round := 1, block_id := ⟨headerF1.hash, none⟩,
     signatures := [.blockIdFlagCommit valW.address 5 sig64] }⟩

def shF1 : SignedHeader := ⟨lshF1, headerF1⟩

/-- A trusted header at height `h`, time 0; its own hashes are opaque
constants since verification never recomputes them. -/
def mkTrustedHeader (h : Nat) (next_vals_hash : Hash) : Header :=
  { version := ⟨10, 1⟩, chain_id := chainT, height := h, time := 0,
    last_block_id := none, last_commit_hash := none, data_hash := none,
    validators_hash := Hash.sha256H (List.replicate 32 0),
    next_validators_hash := next_vals_hash,
    consensus_hash := Hash.sha256H (List.replicate 32 3), app_hash := [],
    last_results_hash := none, evidence_hash := none,
    proposer_address := valW.address }

def mkTrusted (h : Nat) (next_vals_hash : Hash) (vals : Set) : TrustedState :=
  let hd := mkTrustedHeader h next_vals_hash
  ⟨⟨⟨hd, { height := h, round := 1, block_id := ⟨Hash.sha256H (List.replicate 32 0), none⟩,
           signatures := [.blockIdFlagCommit valW.address 0 sig64] }⟩, hd⟩, vals⟩

/-- Trusted state for the C2 witness: one validator of power 1 at height 1. -/
def tsS : TrustedState := mkTrusted 1 (Hash.sha256H (List.replicate 32 0)) (Set.new [valW])

/-- Trusted state for the C2 counterexample: total power exactly 2^63. -/
def tsB : TrustedState :=
  mkTrusted 1 (Hash.sha256H (List.replicate 32 0)) (Set.new [bigT1, valW])

def uvalsF2 : Set := Set.new [valW, valX1]

def headerF2 : Header := mkHeader 10 3 uvalsF2

def lshF2 : LightSignedHeader :=
  ⟨headerF2,
   { height := 10, round := 1, block_id := ⟨headerF2.hash, none⟩,
     signatures := [.blockIdFlagCommit valW.address 5 sig64, .blockIdFlagAbsent] }⟩

def shF2 : SignedHeader := ⟨lshF2, headerF2⟩

/-- Trusted state for the C3 witness: sequential parent of `headerF2`. -/
def tsSeq : TrustedState := mkTrusted 9 uvalsF2.hash (Set.new [valW])

def uvalsF3 : Set := Set.new [valY1, bigY]

def headerF3 : Header := mkHeader 10 3 uvalsF3

def lshF3 : LightSignedHeader :=
  ⟨headerF3,
   { height := 10, round := 1, block_id := ⟨headerF3.hash, none⟩,
     signatures := [.blockIdFlagCommit valY1.address 5 sig64, .blockIdFlagAbsent] }⟩

def shF3 : SignedHeader := ⟨lshF3, headerF3⟩

/-- Trusted state for the C3 counterexample: sequential parent of `headerF3`. -/
def tsSeq3 : TrustedState := mkTrusted 9 uvalsF3.hash (Set.new [valW])

/-! ## Lemmas: the Merkle split point -/

theorem clog2F_eq (fuel : Nat) : ∀ n : Nat, n ≤ fuel → clog2F fuel n = Nat.clog 2 n := by
  induction fuel with
  | zero =>
    intro n hn
    interval_cases n
    simp [clog2F, Nat.clog_of_right_le_one]
  | succ fuel ih =>
    intro n hn
    by_cases h1 : n ≤ 1
    · simp [clog2F, h1, Nat.clog_of_right_le_one h1]
    · have h2 : 2 ≤ n := by omega
      have hdiv : (n + 1) / 2 ≤ fuel := by omega
      have hc := Nat.clog_of_two_le (b := 2) (by norm_num) h2
      have hn21 : n + 2 - 1 = n + 1 := by omega
      rw [hn21] at hc
      simp only [clog2F, h1, if_false]
      rw [ih _ hdiv, hc]

theorem clog2_eq_clog (n : Nat) : clog2 n = Nat.clog 2 n := clog2F_eq n n (Nat.le_refl n)

theorem getSplitPoint_eq {n : Nat} (h : 2 ≤ n) :
    getSplitPoint n = 2 ^ (Nat.clog 2 n - 1) := by
  match n, h with
  | 2, _ =>
    have h22 : Nat.clog 2 2 = 1 := Nat.clog_eq_one (by norm_num) (by norm_num)
    simp [getSplitPoint, h22]
  | (m + 3), _ =>
    have hc : 0 < Nat.clog 2 (m + 3) := Nat.clog_pos (by norm_num) (by omega)
    have h0 : getSplitPoint (m + 3) = nextPowerOfTwo (m + 3) / 2 := rfl
    rw [h0]
    unfold nextPowerOfTwo
    rw [clog2_eq_clog]
    obtain ⟨c, hcp⟩ : ∃ c, Nat.clog 2 (m + 3) = c + 1 := ⟨Nat.clog 2 (m + 3) - 1, by omega⟩
    rw [hcp, Nat.pow_succ]
    simp

theorem getSplitPoint_pos {n : Nat} (h : 2 ≤ n) : 0 < getSplitPoint n := by
  rw [getSplitPoint_eq h]; positivity

theorem getSplitPoint_lt {n : Nat} (h : 2 ≤ n) : getSplitPoint n < n := by
  rw [getSplitPoint_eq h]
  exact Nat.pow_pred_clog_lt_self (by norm_num) (by omega)

theorem getSplitPoint_ge_half {n : Nat} (h : 2 ≤ n) : n / 2 ≤ getSplitPoint n := by
  rw [getSplitPoint_eq h]
  have h1 : n ≤ 2 ^ Nat.clog 2 n := Nat.le_pow_clog (by norm_num) n
  have hc : 0 < Nat.clog 2 n := Nat.clog_pos (by norm_num) h
  have h2 : 2 ^ Nat.clog 2 n = 2 * 2 ^ (Nat.clog 2 n - 1) := by
    obtain ⟨c, hcp⟩ : ∃ c, Nat.clog 2 n = c + 1 := ⟨Nat.clog 2 n - 1, by omega⟩
    rw [hcp, Nat.pow_succ]
    simp only [Nat.add_sub_cancel]
    omega
  omega

theorem getSplitPoint_largest {n : Nat} (h : 2 ≤ n) {j : Nat} (hj : 2 ^ j < n) :
    2 ^ j ≤ getSplitPoint n := by
  rw [getSplitPoint_eq h]
  have h1 : n ≤ 2 ^ Nat.clog 2 n := Nat.le_pow_clog (by norm_num) n
  have hjc : j < Nat.clog 2 n := by
    by_contra hcon
    push_neg at hcon
    have := Nat.pow_le_pow_right (by norm_num : 0 < 2) hcon
    omega
  exact Nat.pow_le_pow_right (by norm_num : 0 < 2) (by omega)

/-- Unfolding equation of `simpleHashF` on a list of two or more leaves. -/
theorem simpleHashF_cons2 (f : Nat) (a b : List Nat) (rest : List (List Nat)) :
    simpleHashF (f + 1) (a :: b :: rest) =
      innerHash (simpleHashF f ((a :: b :: rest).take (getSplitPoint (rest.length + 2))))
        (simpleHashF f ((a :: b :: rest).drop (getSplitPoint (rest.length + 2)))) := rfl

/-- The fuel of `simpleHashF` is irrelevant once it covers the list length. -/
theorem simpleHashF_congr (f1 : Nat) : ∀ (l : List (List Nat)) (f2 : Nat),
    l.length ≤ f1 → l.length ≤ f2 → simpleHashF f1 l = simpleHashF f2 l := by
  induction f1 with
  | zero =>
    intro l f2 h1 _
    match l with
    | [] => cases f2 <;> rfl
  | succ f1 ih =>
    intro l f2 h1 h2
    match l, h1, h2 with
    | [], _, _ => cases f2 <;> rfl
    | [x], _, _ => cases f2 <;> rfl
    | a :: b :: rest, h1, h2 =>
      match f2, h2 with
      | g2 + 1, h2 =>
        have hk1 : 0 < getSplitPoint (rest.length + 2) := getSplitPoint_pos (by omega)
        have hk2 : getSplitPoint (rest.length + 2) < rest.length + 2 :=
          getSplitPoint_lt (by omega)
        have hl1 : rest.length + 2 ≤ f1 + 1 := by
          simpa using h1
        have hl2 : rest.length + 2 ≤ g2 + 1 := by
          simpa using h2
        rw [simpleHashF_cons2, simpleHashF_cons2]
        rw [ih ((a :: b :: rest).take (getSplitPoint (rest.length + 2))) g2
              (by rw [List.length_take]; simp only [List.length_cons]; omega)
              (by rw [List.length_take]; simp only [List.length_cons]; omega),
            ih ((a :: b :: rest).drop (getSplitPoint (rest.length + 2))) g2
              (by rw [List.length_drop]; simp only [List.length_cons]; omega)
              (by rw [List.length_drop]; simp only [List.length_cons]; omega)]

/-- The recursive case of `simple_hash_from_byte_vectors`. -/
theorem simpleHash_split {l : List (List Nat)} (h : 2 ≤ l.length) :
    simpleHashFromByteVectors l =
      innerHash (simpleHashFromByteVectors (l.take (getSplitPoint l.length)))
        (simpleHashFromByteVectors (l.drop (getSplitPoint l.length))) := by
  match l, h with
  | a :: b :: rest, _ =>
    have hk1 : 0 < getSplitPoint (rest.length + 2) := getSplitPoint_pos (by omega)
    have hk2 : getSplitPoint (rest.length + 2) < rest.length + 2 :=
      getSplitPoint_lt (by omega)
    have hlen : (a :: b :: rest).length = rest.length + 2 := by
      simp only [List.length_cons]
    unfold simpleHashFromByteVectors
    rw [hlen, simpleHashF_cons2]
    rw [simpleHashF_congr (rest.length + 1)
          ((a :: b :: rest).take (getSplitPoint (rest.length + 2)))
          ((a :: b :: rest).take (getSplitPoint (rest.length + 2))).length
          (by rw [List.length_take]; simp only [List.length_cons]; omega)
          (Nat.le_refl _),
        simpleHashF_congr (rest.length + 1)
          ((a :: b :: rest).drop (getSplitPoint (rest.length + 2)))
          ((a :: b :: rest).drop (getSplitPoint (rest.length + 2))).length
          (by rw [List.length_drop]; simp only [List.length_cons]; omega)
          (Nat.le_refl _)]

/-! ## Lemmas: wrapped sums -/

/-- A left fold of wrapped `u64` addition computes the wrapped sum. -/
theorem foldl_mod_sum {α : Type} (f : α → Nat) (l : List α) : ∀ acc : Nat, acc < U64 →
    l.foldl (fun t x => (t + f x) % U64) acc = (acc + (l.map f).sum) % U64 := by
  induction l with
  | nil =>
    intro acc hacc
    simp [Nat.mod_eq_of_lt hacc]
  | cons x xs ih =>
    intro acc hacc
    have hmod : (acc + f x) % U64 < U64 := Nat.mod_lt _ (by norm_num [U64])
    simp only [List.foldl_cons, List.map_cons, List.sum_cons]
    rw [ih _ hmod, Nat.mod_add_mod]
    ring_nf

/-! ## C8 -/

/-- C8 (amended): `total_power` is the sum of the members' voting powers
reduced modulo 2^64 — it equals the exact sum exactly when that sum fits
in a `u64`, and wraps rather than rejecting the set otherwise. -/
theorem c8_total_power_wrapped_sum (s : Set) :
    s.total_power = (s.validators.map Info.voting_power).sum % U64 := by
  unfold Set.total_power
  rw [foldl_mod_sum Info.voting_power s.validators 0 (by norm_num [U64])]
  simp

/-- C8 counterexample: the two-validator set whose powers sum to 2^64 is
not rejected — `Set::new` keeps both members — and `total_power` returns
the wrapped value 0, not the mathematical sum 2^64 and not an error. -/
theorem c8_counterexample_overflow_not_rejected :
    (Set.new [bigVal1, bigVal2]).validators = [bigVal1, bigVal2]
    ∧ (Set.new [bigVal1, bigVal2]).total_power = 0
    ∧ bigVal1.voting_power + bigVal2.voting_power = 2 ^ 64 := by
  refine ⟨by decide, by decide, by decide⟩

/-! ## C9 -/

/-- C9: the simple Merkle hash returns 32 zero bytes on no leaves,
`SHA256(0x00 ‖ x)` on one leaf, and otherwise splits at
`k = get_split_point n` into `SHA256(0x01 ‖ left ‖ right)` with the leaf
order preserved, where `0 < k < n`, `k` is a power of two, `k` is the
largest power of two strictly below `n`, and `k ≥ n / 2`. -/
theorem c9_simple_hash_structure (l : List (List Nat)) (x : List Nat)
    (hl : 2 ≤ l.length) :
    simpleHashFromByteVectors [] = List.replicate 32 0
    ∧ simpleHashFromByteVectors [x] = sha256 (0x00 :: x)
    ∧ simpleHashFromByteVectors l =
        sha256 (0x01 :: (simpleHashFromByteVectors (l.take (getSplitPoint l.length))
          ++ simpleHashFromByteVectors (l.drop (getSplitPoint l.length))))
    ∧ 0 < getSplitPoint l.length
    ∧ getSplitPoint l.length < l.length
    ∧ (∃ m, getSplitPoint l.length = 2 ^ m)
    ∧ (∀ j, 2 ^ j < l.length → 2 ^ j ≤ getSplitPoint l.length)
    ∧ l.length / 2 ≤ getSplitPoint l.length := by
  refine ⟨rfl, rfl, simpleHash_split hl, getSplitPoint_pos hl, getSplitPoint_lt hl,
    ⟨Nat.clog 2 l.length - 1, getSplitPoint_eq hl⟩,
    fun j hj => getSplitPoint_largest hl hj, getSplitPoint_ge_half hl⟩

/-- C9 witness: the structure theorem applied to the three-leaf list
`[[0], [1], [2]]` (split point 2) and the singleton leaf `[5]`. -/
theorem c9_witness :
    (2 ≤ ([[0], [1], [2]] : List (List Nat)).length)
    ∧ (simpleHashFromByteVectors [] = List.replicate 32 0
      ∧ simpleHashFromByteVectors [[5]] = sha256 (0x00 :: [5])
      ∧ simpleHashFromByteVectors [[0], [1], [2]] =
          sha256 (0x01 :: (simpleHashFromByteVectors ([[0], [1], [2]].take
              (getSplitPoint ([[0], [1], [2]] : List (List Nat)).length))
            ++ simpleHashFromByteVectors ([[0], [1], [2]].drop
              (getSplitPoint ([[0], [1], [2]] : List (List Nat)).length))))
      ∧ 0 < getSplitPoint ([[0], [1], [2]] : List (List Nat)).length
      ∧ getSplitPoint ([[0], [1], [2]] : List (List Nat)).length
          < ([[0], [1], [2]] : List (List Nat)).length
      ∧ (∃ m, getSplitPoint ([[0], [1], [2]] : List (List Nat)).length = 2 ^ m)
      ∧ (∀ j, 2 ^ j < ([[0], [1], [2]] : List (List Nat)).length →
          2 ^ j ≤ getSplitPoint ([[0], [1], [2]] : List (List Nat)).length)
      ∧ ([[0], [1], [2]] : List (List Nat)).length / 2
          ≤ getSplitPoint ([[0], [1], [2]] : List (List Nat)).length) :=
  ⟨by decide, c9_simple_hash_structure [[0], [1], [2]] [5] (by decide)⟩

/-! ## Lemmas: `Set::new` on duplicate-free inputs -/

/-- `dedup_by` keeps a list whose addresses are pairwise distinct. -/
theorem dedupRun_of_nodup : ∀ (l : List Info) (prev : Info),
    ((prev :: l).map Info.address).Nodup → dedupRun prev l = l := by
  intro l
  induction l with
  | nil => intro prev _; rfl
  | cons y ys ih =>
    intro prev h
    simp only [List.map_cons, List.nodup_cons, List.mem_cons, List.mem_map] at h
    have hne : ¬ y.address = prev.address := by
      intro he
      exact h.1 (Or.inl he.symm)
    have hys : ((y :: ys).map Info.address).Nodup := by
      simp only [List.map_cons, List.nodup_cons, List.mem_map]
      exact ⟨h.2.1, h.2.2⟩
    simp only [dedupRun, hne, if_false]
    rw [ih y hys]

theorem dedupByAddr_of_nodup (l : List Info) (h : (l.map Info.address).Nodup) :
    dedupByAddr l = l := by
  match l with
  | [] => rfl
  | x :: xs =>
    simp only [dedupByAddr]
    rw [dedupRun_of_nodup xs x h]

theorem sortByAddr_perm (l : List Info) : (sortByAddr l).Perm l :=
  List.perm_insertionSort _ l

theorem sortByAddr_sorted (l : List Info) :
    (sortByAddr l).Pairwise (fun v1 v2 => v1.address ≤ v2.address) := by
  haveI : IsTotal Info (fun v1 v2 => v1.address ≤ v2.address) :=
    ⟨fun a b => Nat.le_total a.address b.address⟩
  haveI : IsTrans Info (fun v1 v2 => v1.address ≤ v2.address) :=
    ⟨fun _ _ _ hab hbc => Nat.le_trans hab hbc⟩
  exact List.sorted_insertionSort _ l

/-- Two sorted lists with pairwise distinct addresses that are permutations
of each other are equal. -/
theorem eq_of_perm_sorted_addr {l1 l2 : List Info} (hp : l1.Perm l2)
    (hn : (l1.map Info.address).Nodup)
    (hs1 : l1.Pairwise (fun v1 v2 => v1.address ≤ v2.address))
    (hs2 : l2.Pairwise (fun v1 v2 => v1.address ≤ v2.address)) : l1 = l2 := by
  haveI : IsAntisymm Info (fun v1 v2 => v1.address < v2.address) :=
    ⟨fun a b h1 h2 => absurd (Nat.lt_trans h1 h2) (Nat.lt_irrefl _)⟩
  have hn2 : (l2.map Info.address).Nodup := ((hp.map Info.address).nodup_iff).mp hn
  have hne1 : l1.Pairwise (fun v1 v2 => v1.address ≠ v2.address) :=
    (List.pairwise_map).mp hn
  have hne2 : l2.Pairwise (fun v1 v2 => v1.address ≠ v2.address) :=
    (List.pairwise_map).mp hn2
  have hlt1 : l1.Pairwise (fun v1 v2 => v1.address < v2.address) :=
    (hs1.and hne1).imp (fun h => Nat.lt_of_le_of_ne h.1 h.2)
  have hlt2 : l2.Pairwise (fun v1 v2 => v1.address < v2.address) :=
    (hs2.and hne2).imp (fun h => Nat.lt_of_le_of_ne h.1 h.2)
  exact List.eq_of_perm_of_sorted hp hlt1 hlt2

/-! ## C7 -/

/-- C7 (amended): `Set::new` (and hence `hash()`) is invariant under
permutations of an input whose addresses are pairwise distinct.  (Under
duplicated addresses it is not: `Vec::dedup_by` removes only consecutive
duplicates, before sorting — see the counterexample.) -/
theorem c7_set_new_perm_invariant (l1 l2 : List Info) (hp : l1.Perm l2)
    (hn : (l1.map Info.address).Nodup) :
    Set.new l1 = Set.new l2 ∧ (Set.new l1).hash = (Set.new l2).hash := by
  have hn2 : (l2.map Info.address).Nodup := ((hp.map Info.address).nodup_iff).mp hn
  have hmain : Set.new l1 = Set.new l2 := by
    unfold Set.new
    rw [dedupByAddr_of_nodup l1 hn, dedupByAddr_of_nodup l2 hn2]
    have hperm : (sortByAddr l1).Perm (sortByAddr l2) :=
      ((sortByAddr_perm l1).trans hp).trans (sortByAddr_perm l2).symm
    have hns : ((sortByAddr l1).map Info.address).Nodup :=
      (((sortByAddr_perm l1).map Info.address).nodup_iff).mpr hn
    exact congrArg Set.mk
      (eq_of_perm_sorted_addr hperm hns (sortByAddr_sorted l1) (sortByAddr_sorted l2))
  exact ⟨hmain, by rw [hmain]⟩

/-- C7 witness: permuting a duplicate-free two-validator list leaves
`Set::new` and the hash unchanged. -/
theorem c7_witness :
    ([valC7a, valC7b] : List Info).Perm [valC7b, valC7a]
    ∧ (([valC7a, valC7b].map Info.address).Nodup)
    ∧ (Set.new [valC7a, valC7b] = Set.new [valC7b, valC7a]
      ∧ (Set.new [valC7a, valC7b]).hash = (Set.new [valC7b, valC7a]).hash) :=
  ⟨by decide, by decide,
    c7_set_new_perm_invariant [valC7a, valC7b] [valC7b, valC7a] (by decide) (by decide)⟩

/-- C7 counterexample: `[a, b, a]` duplicates the address of `a` in
`[a, b]`, yet the two constructed sets hash differently — the claim's
invariance under duplication fails, because `dedup_by` runs before the
sort and only removes consecutive duplicates. -/
theorem c7_counterexample_duplicate_changes_hash :
    (Set.new [valC7a, valC7b, valC7a]).hash ≠ (Set.new [valC7a, valC7b]).hash := by
  decide

/-! ## Lemmas: the voting-power loop -/

theorem contains_iff_mem (l : List Nat) (a : Nat) : l.contains a = true ↔ a ∈ l := by
  simp [List.contains, List.elem_eq_mem]

/-- Full characterisation of the `voting_power_in` loop: it succeeds iff the
known votes' validator ids are pairwise distinct, disjoint from `seen`, and
all verify; the success value is the wrapped power fold, and any failure is
`ImplementationSpecific`. -/
theorem votingPowerLoop_eq (o : Ed25519Oracle) (vals : Set) :
    ∀ (svs : List SignedVote) (seen : List Nat) (acc : Nat),
    votingPowerLoop o vals svs seen acc =
      if ((vpKnown vals svs).map SignedVote.validator_id).Nodup
         ∧ (∀ sv ∈ vpKnown vals svs, ¬ sv.validator_id ∈ seen)
         ∧ (∀ sv ∈ vpKnown vals svs, voteVerifies o vals sv = true)
      then .ok ((vpKnown vals svs).foldl (fun t sv => (t + powOf vals sv) % U64) acc)
      else .error .implementationSpecific := by
  intro svs
  induction svs with
  | nil => intro seen acc; simp [votingPowerLoop, vpKnown]
  | cons sv rest ih =>
    intro seen acc
    cases hlook : vals.validator sv.validator_id with
    | none =>
      have hknown : vpKnown vals (sv :: rest) = vpKnown vals rest := by
        simp [vpKnown, List.filter_cons, hlook]
      simp only [votingPowerLoop, hlook]
      rw [ih seen acc, hknown]
    | some val =>
      have hknown : vpKnown vals (sv :: rest) = sv :: vpKnown vals rest := by
        simp [vpKnown, List.filter_cons, hlook]
      have hpow : powOf vals sv = val.power := by
        simp [powOf, hlook]
      have hver : voteVerifies o vals sv
          = Info.verify_signature o val sv.sign_bytes sv.signature := by
        simp [voteVerifies, hlook]
      by_cases hseen : sv.validator_id ∈ seen
      · have hc : seen.contains sv.validator_id = true := (contains_iff_mem _ _).mpr hseen
        simp only [votingPowerLoop, hlook, hc, if_true]
        rw [if_neg]
        intro hcond
        exact (hcond.2.1 sv (by rw [hknown]; exact List.mem_cons_self sv _)) hseen
      · have hc : seen.contains sv.validator_id = false := by
          by_contra hne
          exact hseen ((contains_iff_mem _ _).mp (by revert hne; cases seen.contains sv.validator_id <;> simp))
        simp only [votingPowerLoop, hlook, hc]
        by_cases hv : Info.verify_signature o val sv.sign_bytes sv.signature = true
        · simp only [hv, if_true, Bool.false_eq_true, if_false]
          rw [ih (sv.validator_id :: seen) ((acc + val.power) % U64)]
          have hiff :
              (((vpKnown vals rest).map SignedVote.validator_id).Nodup
                ∧ (∀ x ∈ vpKnown vals rest, ¬ x.validator_id ∈ sv.validator_id :: seen)
                ∧ (∀ x ∈ vpKnown vals rest, voteVerifies o vals x = true))
              ↔ (((vpKnown vals (sv :: rest)).map SignedVote.validator_id).Nodup
                ∧ (∀ x ∈ vpKnown vals (sv :: rest), ¬ x.validator_id ∈ seen)
                ∧ (∀ x ∈ vpKnown vals (sv :: rest), voteVerifies o vals x = true)) := by
            rw [hknown]
            constructor
            · rintro ⟨hnd, hdisj, hverr⟩
              refine ⟨?_, ?_, ?_⟩
              · simp only [List.map_cons, List.nodup_cons]
                refine ⟨?_, hnd⟩
                intro hmem
                obtain ⟨x, hx, hxid⟩ := List.mem_map.mp hmem
                exact (hdisj x hx) (List.mem_cons.mpr (Or.inl hxid))
              · intro x hx
                rcases List.mem_cons.mp hx with rfl | hx2
                · exact hseen
                · intro hmem
                  exact (hdisj x hx2) (List.mem_cons.mpr (Or.inr hmem))
              · intro x hx
                rcases List.mem_cons.mp hx with rfl | hx2
                · rw [hver]; exact hv
                · exact hverr x hx2
            · rintro ⟨hnd, hdisj, hverr⟩
              simp only [List.map_cons, List.nodup_cons] at hnd
              refine ⟨hnd.2, ?_, fun x hx => hverr x (List.mem_cons.mpr (Or.inr hx))⟩
              intro x hx hmem
              rcases List.mem_cons.mp hmem with heq | hmem2
              · exact hnd.1 (List.mem_map.mpr ⟨x, hx, heq⟩)
              · exact (hdisj x (List.mem_cons.mpr (Or.inr hx))) hmem2
          rw [if_congr hiff rfl rfl, hknown]
          congr 1
          simp only [List.foldl_cons, hpow]
        · have hvf : Info.verify_signature o val sv.sign_bytes sv.signature = false := by
            revert hv; cases Info.verify_signature o val sv.sign_bytes sv.signature <;> simp
          simp only [hvf, Bool.false_eq_true, if_false]
          rw [if_neg]
          intro hcond
          have := hcond.2.2 sv (by rw [hknown]; exact List.mem_cons_self sv _)
          rw [hver, hvf] at this
          exact Bool.false_ne_true this

/-- Top-level characterisation of `voting_power_in` (seen set empty,
accumulator 0): the wrapped sum of the known, distinct, verified votes. -/
theorem voting_power_in_eq (o : Ed25519Oracle) (lsh : LightSignedHeader) (vals : Set) :
    LightSignedHeader.voting_power_in o lsh vals =
      if ((vpKnown vals lsh.signed_votes).map SignedVote.validator_id).Nodup
         ∧ (∀ sv ∈ vpKnown vals lsh.signed_votes, voteVerifies o vals sv = true)
      then .ok (((vpKnown vals lsh.signed_votes).map (powOf vals)).sum % U64)
      else .error .implementationSpecific := by
  unfold LightSignedHeader.voting_power_in
  rw [votingPowerLoop_eq]
  by_cases h : ((vpKnown vals lsh.signed_votes).map SignedVote.validator_id).Nodup
      ∧ (∀ sv ∈ vpKnown vals lsh.signed_votes, voteVerifies o vals sv = true)
  · rw [if_pos ⟨h.1, by simp, h.2⟩, if_pos h,
      foldl_mod_sum (powOf vals) (vpKnown vals lsh.signed_votes) 0 (by norm_num [U64])]
    simp
  · rw [if_neg, if_neg h]
    intro hcond
    exact h ⟨hcond.1, hcond.2.2⟩

/-- Any failure of `voting_power_in` is `ImplementationSpecific`. -/
theorem voting_power_in_error (o : Ed25519Oracle) (lsh : LightSignedHeader) (vals : Set)
    (e : Kind) : LightSignedHeader.voting_power_in o lsh vals = .error e →
    e = .implementationSpecific := by
  rw [voting_power_in_eq]
  split
  · intro h; cases h
  · intro h; cases h; rfl

/-! ## C5 -/

/-- C5: `voting_power_in` walks the non-absent signed votes in order;
votes from validators outside the set are skipped without error (only the
`vpKnown` sub-list matters), a repeated counted validator id or a counted
vote whose signature fails against its canonical sign bytes yields an
`ImplementationSpecific` error, and otherwise the result is the sum of the
counted validators' powers (`u64`, wrapped). -/
theorem c5_voting_power_in_behaviour (o : Ed25519Oracle) (lsh : LightSignedHeader)
    (vals : Set) :
    LightSignedHeader.voting_power_in o lsh vals =
      if ((vpKnown vals lsh.signed_votes).map SignedVote.validator_id).Nodup
         ∧ (∀ sv ∈ vpKnown vals lsh.signed_votes, voteVerifies o vals sv = true)
      then .ok (((vpKnown vals lsh.signed_votes).map (powOf vals)).sum % U64)
      else .error .implementationSpecific :=
  voting_power_in_eq o lsh vals

/-! ## C6 -/

theorem validateSigners_eq (vals : Set) : ∀ sigs : List CommitSig,
    validateSigners vals sigs =
      if ∀ cs ∈ sigs, commitSigKnown vals cs = true then .ok ()
      else .error .implementationSpecific := by
  intro sigs
  induction sigs with
  | nil => simp [validateSigners]
  | cons cs rest ih =>
    cases cs with
    | blockIdFlagAbsent =>
      simp only [validateSigners, ih]
      by_cases h : ∀ x ∈ rest, commitSigKnown vals x = true
      · rw [if_pos h, if_pos]
        intro x hx
        rcases List.mem_cons.mp hx with rfl | hx2
        · rfl
        · exact h x hx2
      · rw [if_neg h, if_neg]
        intro hall
        exact h fun x hx => hall x (List.mem_cons.mpr (Or.inr hx))
    | blockIdFlagCommit a t sg =>
      simp only [validateSigners, ih]
      cases hlook : vals.validator a with
      | none =>
        rw [if_pos rfl, if_neg]
        intro hall
        have := hall (.blockIdFlagCommit a t sg) (List.mem_cons_self _ _)
        simp [commitSigKnown, hlook] at this
      | some v =>
        rw [if_neg (by simp [hlook])]
        by_cases h : ∀ x ∈ rest, commitSigKnown vals x = true
        · rw [if_pos h, if_pos]
          intro x hx
          rcases List.mem_cons.mp hx with rfl | hx2
          · simp [commitSigKnown, hlook]
          · exact h x hx2
        · rw [if_neg h, if_neg]
          intro hall
          exact h fun x hx => hall x (List.mem_cons.mpr (Or.inr hx))
    | blockIdFlagNil a t sg =>
      simp only [validateSigners, ih]
      cases hlook : vals.validator a with
      | none =>
        rw [if_pos rfl, if_neg]
        intro hall
        have := hall (.blockIdFlagNil a t sg) (List.mem_cons_self _ _)
        simp [commitSigKnown, hlook] at this
      | some v =>
        rw [if_neg (by simp [hlook])]
        by_cases h : ∀ x ∈ rest, commitSigKnown vals x = true
        · rw [if_pos h, if_pos]
          intro x hx
          rcases List.mem_cons.mp hx with rfl | hx2
          · simp [commitSigKnown, hlook]
          · exact h x hx2
        · rw [if_neg h, if_neg]
          intro hall
          exact h fun x hx => hall x (List.mem_cons.mpr (Or.inr hx))

/-- Characterisation of `LightSignedHeader::validate`. -/
theorem validate_sh_eq (sh : LightSignedHeader) (vals : Set) :
    LightSignedHeader.validate sh vals =
      if sh.commit.signatures.length ≠ 0
         ∧ sh.commit.signatures.length = vals.validators.length
         ∧ ∀ cs ∈ sh.commit.signatures, commitSigKnown vals cs = true
      then .ok () else .error .implementationSpecific := by
  unfold LightSignedHeader.validate
  by_cases h0 : sh.commit.signatures.length = 0
  · rw [if_pos h0, if_neg]
    intro hcond
    exact hcond.1 h0
  · rw [if_neg h0]
    by_cases h1 : sh.commit.signatures.length = vals.validators.length
    · rw [if_neg (by simp [h1]), validateSigners_eq]
      by_cases h2 : ∀ cs ∈ sh.commit.signatures, commitSigKnown vals cs = true
      · rw [if_pos h2, if_pos ⟨h0, h1, h2⟩]
      · rw [if_neg h2, if_neg]
        intro hcond
        exact h2 hcond.2.2
    · rw [if_pos h1, if_neg]
      intro hcond
      exact h1 hcond.2.1

/-- Any failure of `LightSignedHeader::validate` is `ImplementationSpecific`. -/
theorem validate_sh_error (sh : LightSignedHeader) (vals : Set) (e : Kind) :
    LightSignedHeader.validate sh vals = .error e → e = .implementationSpecific := by
  rw [validate_sh_eq]
  split
  · intro h; cases h
  · intro h; cases h; rfl

/-- C6: `Commit::validate(vals)` fails — always with
`ImplementationSpecific` — exactly when the signature list is empty, or its
length differs from the validator count, or some non-Absent signature's
validator address is not in the set; otherwise it returns Ok. -/
theorem c6_validate_characterisation (sh : LightSignedHeader) (vals : Set) :
    (LightSignedHeader.validate sh vals = .error .implementationSpecific
      ↔ (sh.commit.signatures = []
         ∨ sh.commit.signatures.length ≠ vals.validators.length
         ∨ ∃ cs ∈ sh.commit.signatures, commitSigKnown vals cs = false))
    ∧ (LightSignedHeader.validate sh vals = .ok ()
      ↔ ¬(sh.commit.signatures = []
         ∨ sh.commit.signatures.length ≠ vals.validators.length
         ∨ ∃ cs ∈ sh.commit.signatures, commitSigKnown vals cs = false)) := by
  rw [validate_sh_eq]
  have hiff : (sh.commit.signatures.length ≠ 0
         ∧ sh.commit.signatures.length = vals.validators.length
         ∧ ∀ cs ∈ sh.commit.signatures, commitSigKnown vals cs = true)
      ↔ ¬(sh.commit.signatures = []
         ∨ sh.commit.signatures.length ≠ vals.validators.length
         ∨ ∃ cs ∈ sh.commit.signatures, commitSigKnown vals cs = false) := by
    constructor
    · rintro ⟨hz, hlen, hall⟩ hbad
      rcases hbad with hnil | hne | ⟨cs, hcs, hfalse⟩
      · exact hz (by simp [hnil])
      · exact hne hlen
      · rw [hall cs hcs] at hfalse
        cases hfalse
    · intro hngood
      push_neg at hngood
      obtain ⟨hnil, hlen, hall⟩ := hngood
      refine ⟨by simpa using hnil, hlen, fun cs hcs => ?_⟩
      have := hall cs hcs
      revert this
      cases commitSigKnown vals cs <;> simp
  split
  · rename_i hcond
    constructor
    · constructor
      · intro h; cases h
      · intro hd; exact absurd hd (hiff.mp hcond)
    · exact iff_of_true rfl (hiff.mp hcond)
  · rename_i hcond
    constructor
    · constructor
      · intro _
        by_contra hd
        exact hcond (hiff.mpr hd)
      · intro _; rfl
    · constructor
      · intro h; cases h
      · intro hd
        exact absurd (hiff.mpr hd) hcond

/-! ## Lemmas: error classification of the engine stages -/

theorem validate_error_kinds (header : Header) (commit : LightSignedHeader) (vals : Set)
    (nv : Option Set) (e : Kind) : validate header commit vals nv = .error e →
    e = .implementationSpecific
    ∨ (∃ a b, e = .invalidValidatorSet a b)
    ∨ (∃ a b, e = .invalidNextValidatorSet a b)
    ∨ (∃ a b, e = .invalidCommitValue a b) := by
  unfold validate
  split
  · intro h; cases h
    exact Or.inr (Or.inl ⟨_, _, rfl⟩)
  · split
    · split
      · intro h; cases h
        exact Or.inr (Or.inr (Or.inl ⟨_, _, rfl⟩))
      · split
        · intro h; cases h
          exact Or.inr (Or.inr (Or.inr ⟨_, _, rfl⟩))
        · intro h
          exact Or.inl (validate_sh_error _ _ _ h)
    · split
      · intro h; cases h
        exact Or.inr (Or.inr (Or.inr ⟨_, _, rfl⟩))
      · intro h
        exact Or.inl (validate_sh_error _ _ _ h)

/-- `verify_commit_full` once the voting power is known. -/
theorem verify_commit_full_eq (o : Ed25519Oracle) (vals : Set) (header : Header)
    (commit : LightSignedHeader) (s : Nat)
    (h : commit.voting_power_in o vals = .ok s) :
    verify_commit_full o vals header commit =
      if s * 3 % U64 ≤ vals.total_power * 2 % U64
      then .error (.invalidCommit vals.total_power s) else .ok () := by
  unfold verify_commit_full
  rw [h]

theorem verify_commit_full_error (o : Ed25519Oracle) (vals : Set) (header : Header)
    (commit : LightSignedHeader) (e : Kind) :
    verify_commit_full o vals header commit = .error e →
    e = .implementationSpecific ∨ ∃ t s, e = .invalidCommit t s := by
  intro h
  unfold verify_commit_full at h
  cases hv : commit.voting_power_in o vals with
  | error e2 =>
    simp only [hv] at h
    cases h
    exact Or.inl (voting_power_in_error _ _ _ _ hv)
  | ok s =>
    simp only [hv] at h
    split at h
    · cases h
      exact Or.inr ⟨_, _, rfl⟩
    · cases h

theorem heightDispatch_error (o : Ed25519Oracle) (ts : TrustedState) (sh : SignedHeader)
    (vals : Set) (th : TrustThresholdFraction) (e : Kind) :
    heightDispatch o ts sh vals th = .error e →
    (∃ a b, e = .nonIncreasingHeight a b)
    ∨ (∃ a b, e = .invalidValidatorSet a b)
    ∨ e = .implementationSpecific
    ∨ (∃ a b c d, e = .insufficientSignedVotingPower a b c d) := by
  intro h
  unfold heightDispatch at h
  split at h
  · cases h
    exact Or.inl ⟨_, _, rfl⟩
  · split at h
    · split at h
      · cases h
        exact Or.inr (Or.inl ⟨_, _, rfl⟩)
      · cases h
    · cases hv : LightSignedHeader.voting_power_in o sh.commit
          (ts.validators.intersect vals) with
      | error e2 =>
        simp only [hv] at h
        cases h
        exact Or.inr (Or.inr (Or.inl (voting_power_in_error _ _ _ _ hv)))
      | ok s =>
        simp only [hv] at h
        split at h
        · cases h
          exact Or.inr (Or.inr (Or.inr ⟨_, _, _, _, rfl⟩))
        · cases h

/-- No stage of `verify_single_inner` can produce an expiry-stage error. -/
theorem verify_single_inner_error_not_expiry (o : Ed25519Oracle) (ts : TrustedState)
    (sh : SignedHeader) (vals next : Set) (th : TrustThresholdFraction) (e : Kind) :
    verify_single_inner o ts sh vals next th = .error e → isExpiryErr e = false := by
  intro h
  unfold verify_single_inner at h
  cases hval : validate sh.header sh.commit vals (some next) with
  | error e2 =>
    simp only [hval] at h
    cases h
    rcases validate_error_kinds _ _ _ _ _ hval with h1 | ⟨a, b, h1⟩ | ⟨a, b, h1⟩ | ⟨a, b, h1⟩ <;>
      subst h1 <;> rfl
  | ok u =>
    simp only [hval] at h
    split at h
    · cases h; rfl
    · cases hhd : heightDispatch o ts sh vals th with
      | error e2 =>
        simp only [hhd] at h
        cases h
        rcases heightDispatch_error _ _ _ _ _ _ hhd with
          ⟨a, b, h1⟩ | ⟨a, b, h1⟩ | h1 | ⟨a, b, c, d, h1⟩ <;> subst h1 <;> rfl
      | ok u2 =>
        simp only [hhd] at h
        rcases verify_commit_full_error _ _ _ _ _ h with h1 | ⟨a, b, h1⟩ <;>
          subst h1 <;> rfl

/-! ## C1 -/

/-- C1: whenever `verify_single` succeeds, the returned trusted state is
exactly `TrustedState { last_header = untrusted_sh, validators =
untrusted_next_vals }`; otherwise it returns a typed error and no trusted
state. -/
theorem c1_verify_single_output_shape (o : Ed25519Oracle) (trusted_state : TrustedState)
    (untrusted_sh : SignedHeader) (untrusted_vals untrusted_next_vals : Set)
    (trust_threshold : TrustThresholdFraction) (trusting_period : Nat) (now : Int) :
    verify_single o trusted_state untrusted_sh untrusted_vals untrusted_next_vals
        trust_threshold trusting_period now
      = .ok (TrustedState.new untrusted_sh untrusted_next_vals)
    ∨ ∃ e : Kind, verify_single o trusted_state untrusted_sh untrusted_vals
        untrusted_next_vals trust_threshold trusting_period now = .error e := by
  unfold verify_single
  cases is_within_trust_period trusted_state.last_header.header trusting_period now with
  | error e => exact Or.inr ⟨e, rfl⟩
  | ok _ =>
    cases verify_single_inner o trusted_state untrusted_sh untrusted_vals
        untrusted_next_vals trust_threshold with
    | error e => exact Or.inr ⟨e, rfl⟩
    | ok _ => exact Or.inl rfl

/-! ## C4 -/

/-- C4: `verify_single` fails with `Expired` (carrying
`expires_at = trusted_time + period` and `now`) exactly when
`expires_at ≤ now` — the boundary `expires_at = now` is expired — and with
`DurationOutOfRange` exactly when it is not expired but the trusted
header's time lies strictly after `now`.  No later stage produces either
error kind. -/
theorem c4_expiry_first_and_boundary (o : Ed25519Oracle) (trusted_state : TrustedState)
    (untrusted_sh : SignedHeader) (untrusted_vals untrusted_next_vals : Set)
    (trust_threshold : TrustThresholdFraction) (trusting_period : Nat) (now : Int) :
    (verify_single o trusted_state untrusted_sh untrusted_vals untrusted_next_vals
        trust_threshold trusting_period now
      = .error (.expired (trusted_state.last_header.header.time + trusting_period) now)
      ↔ trusted_state.last_header.header.time + trusting_period ≤ now)
    ∧ (verify_single o trusted_state untrusted_sh untrusted_vals untrusted_next_vals
        trust_threshold trusting_period now
      = .error .durationOutOfRange
      ↔ (now < trusted_state.last_header.header.time + trusting_period
         ∧ now < trusted_state.last_header.header.time)) := by
  unfold verify_single is_within_trust_period
  by_cases hexp : trusted_state.last_header.header.time + (trusting_period : Int) ≤ now
  · rw [if_pos hexp]
    constructor
    · exact iff_of_true rfl hexp
    · constructor
      · intro h; cases h
      · intro hc; omega
  · rw [if_neg hexp]
    by_cases hfut : trusted_state.last_header.header.time ≤ now
    · rw [if_neg (by omega : ¬¬ trusted_state.last_header.header.time ≤ now)]
      constructor
      · constructor
        · intro h
          cases hinner : verify_single_inner o trusted_state untrusted_sh untrusted_vals
              untrusted_next_vals trust_threshold with
          | error e2 =>
            simp only [hinner] at h
            cases h
            have hne := verify_single_inner_error_not_expiry _ _ _ _ _ _ _ hinner
            simp [isExpiryErr] at hne
          | ok u =>
            simp only [hinner] at h
            cases h
        · intro h; exact absurd h hexp
      · constructor
        · intro h
          cases hinner : verify_single_inner o trusted_state untrusted_sh untrusted_vals
              untrusted_next_vals trust_threshold with
          | error e2 =>
            simp only [hinner] at h
            cases h
            have hne := verify_single_inner_error_not_expiry _ _ _ _ _ _ _ hinner
            simp [isExpiryErr] at hne
          | ok u =>
            simp only [hinner] at h
            cases h
        · intro hc; omega
    · rw [if_pos (by omega : ¬ trusted_state.last_header.header.time ≤ now)]
      constructor
      · constructor
        · intro h; cases h
        · intro h; exact absurd h hexp
      · exact iff_of_true rfl ⟨by omega, by omega⟩

/-! ## C10 -/

/-- C10: `Info::verify_signature` returns `false` — never an error or a
panic — whenever the validator's key is not an Ed25519 key (`ed25519()`
yields `None`, e.g. for Secp256k1 keys), and whenever the raw signature is
not a well-formed 64-byte Ed25519 signature; such validators contribute no
signed voting power, for every oracle behaviour. -/
theorem c10_verify_signature_guard (o : Ed25519Oracle) (i : Info) (msg sig : List Nat) :
    (i.pub_key.ed25519Key = none → Info.verify_signature o i msg sig = false)
    ∧ (sig.length ≠ 64 → Info.verify_signature o i msg sig = false) := by
  constructor
  · intro h
    unfold Info.verify_signature
    rw [h]
  · intro h
    unfold Info.verify_signature
    cases hk : i.pub_key.ed25519Key with
    | none => rfl
    | some pk =>
      simp [h]

/-! ## C2 -/

/-- C2 (amended): in the skipping case, once expiry, validation, the time
check and the height comparison have passed and the commit's voting power
over `common = trusted.validators ∩ untrusted_vals` is `signed`,
`verify_single` fails with `InsufficientSignedVotingPower` exactly when
`signed < minimum_power_to_be_trusted(trusted total power)` — where the
minimum is computed in wrapping `u64` arithmetic,
`(total * numerator mod 2^64) / denominator + 1 (mod 2^64)`, not in exact
integer arithmetic. -/
theorem c2_skipping_trust_gate (o : Ed25519Oracle) (trusted_state : TrustedState)
    (untrusted_sh : SignedHeader) (untrusted_vals untrusted_next_vals : Set)
    (th : TrustThresholdFraction) (trusting_period : Nat) (now : Int) (signed : Nat)
    (hexp : is_within_trust_period trusted_state.last_header.header trusting_period now
      = .ok ())
    (hval : validate untrusted_sh.header untrusted_sh.commit untrusted_vals
      (some untrusted_next_vals) = .ok ())
    (htime : ¬ untrusted_sh.header.time ≤ trusted_state.last_header.header.time)
    (hh : trusted_state.last_header.header.height + 1 < untrusted_sh.header.height)
    (hvpi : LightSignedHeader.voting_power_in o untrusted_sh.commit
      (trusted_state.validators.intersect untrusted_vals) = .ok signed) :
    (verify_single o trusted_state untrusted_sh untrusted_vals untrusted_next_vals th
        trusting_period now
      = .error (.insufficientSignedVotingPower trusted_state.validators.total_power
          signed th.numerator th.denominator)
      ↔ signed < th.minimum_power_to_be_trusted trusted_state.validators.total_power)
    ∧ th.minimum_power_to_be_trusted trusted_state.validators.total_power
      = (trusted_state.validators.total_power * th.numerator % U64 / th.denominator + 1)
          % U64 := by
  have hhd2 : heightDispatch o trusted_state untrusted_sh untrusted_vals th
      = (if signed < th.minimum_power_to_be_trusted trusted_state.validators.total_power
         then .error (.insufficientSignedVotingPower trusted_state.validators.total_power
           signed th.numerator th.denominator)
         else .ok ()) := by
    unfold heightDispatch
    rw [if_neg (by omega), if_neg (by omega)]
    simp only [hvpi]
  have hinner : verify_single_inner o trusted_state untrusted_sh untrusted_vals
      untrusted_next_vals th
      = (if signed < th.minimum_power_to_be_trusted trusted_state.validators.total_power
         then .error (.insufficientSignedVotingPower trusted_state.validators.total_power
           signed th.numerator th.denominator)
         else verify_commit_full o untrusted_vals untrusted_sh.header untrusted_sh.commit) := by
    unfold verify_single_inner
    simp only [hval]
    rw [if_neg htime]
    by_cases hlt : signed < th.minimum_power_to_be_trusted trusted_state.validators.total_power
    · rw [if_pos hlt]
      simp only [hhd2, if_pos hlt]
    · rw [if_neg hlt]
      simp only [hhd2, if_neg hlt]
  refine ⟨?_, rfl⟩
  unfold verify_single
  simp only [hexp, hinner]
  by_cases hlt : signed < th.minimum_power_to_be_trusted trusted_state.validators.total_power
  · rw [if_pos hlt]
    exact iff_of_true rfl hlt
  · rw [if_neg hlt]
    apply iff_of_false _ hlt
    cases hvcf : verify_commit_full o untrusted_vals untrusted_sh.header untrusted_sh.commit with
    | error e2 =>
      simp only [hvcf]
      intro hcontra
      cases hcontra
      rcases verify_commit_full_error _ _ _ _ _ hvcf with h1 | ⟨a, b, h1⟩ <;> cases h1
    | ok u =>
      simp only [hvcf]
      intro hcontra
      cases hcontra

/-! ## C3 -/

/-- C3 (amended): once expiry, validation, the time check and the height
dispatch have passed and the commit's voting power in the untrusted
validator set is `signed_full`, `verify_single` fails with `InvalidCommit`
exactly when `signed_full * 3 ≤ total * 2` holds in wrapping `u64`
arithmetic (both products reduced mod 2^64), not in exact integer
arithmetic. -/
theorem c3_full_commit_two_thirds (o : Ed25519Oracle) (trusted_state : TrustedState)
    (untrusted_sh : SignedHeader) (untrusted_vals untrusted_next_vals : Set)
    (th : TrustThresholdFraction) (trusting_period : Nat) (now : Int) (signed_full : Nat)
    (hexp : is_within_trust_period trusted_state.last_header.header trusting_period now
      = .ok ())
    (hval : validate untrusted_sh.header untrusted_sh.commit untrusted_vals
      (some untrusted_next_vals) = .ok ())
    (htime : ¬ untrusted_sh.header.time ≤ trusted_state.last_header.header.time)
    (hgate : (untrusted_sh.header.height = trusted_state.last_header.header.height + 1
        ∧ trusted_state.last_header.header.next_validators_hash
            = untrusted_sh.header.validators_hash)
      ∨ (trusted_state.last_header.header.height + 1 < untrusted_sh.header.height
        ∧ ∃ s, LightSignedHeader.voting_power_in o untrusted_sh.commit
              (trusted_state.validators.intersect untrusted_vals) = .ok s
          ∧ ¬ s < th.minimum_power_to_be_trusted trusted_state.validators.total_power))
    (hvpif : LightSignedHeader.voting_power_in o untrusted_sh.commit untrusted_vals
      = .ok signed_full) :
    verify_single o trusted_state untrusted_sh untrusted_vals untrusted_next_vals th
        trusting_period now
      = .error (.invalidCommit untrusted_vals.total_power signed_full)
    ↔ signed_full * 3 % U64 ≤ untrusted_vals.total_power * 2 % U64 := by
  have hhd3 : heightDispatch o trusted_state untrusted_sh untrusted_vals th = .ok () := by
    unfold heightDispatch
    rcases hgate with ⟨hseq, hhash⟩ | ⟨hskip, s, hs, hmin⟩
    · rw [if_neg (by omega), if_pos hseq, if_neg (fun hc => hc hhash)]
    · rw [if_neg (by omega), if_neg (by omega)]
      simp only [hs]
      rw [if_neg hmin]
  have hinner : verify_single_inner o trusted_state untrusted_sh untrusted_vals
      untrusted_next_vals th
      = verify_commit_full o untrusted_vals untrusted_sh.header untrusted_sh.commit := by
    unfold verify_single_inner
    simp only [hval]
    rw [if_neg htime]
    simp only [hhd3]
  unfold verify_single
  simp only [hexp, hinner,
    verify_commit_full_eq o untrusted_vals untrusted_sh.header untrusted_sh.commit
      signed_full hvpif]
  by_cases hc : signed_full * 3 % U64 ≤ untrusted_vals.total_power * 2 % U64
  · rw [if_pos hc]
    exact iff_of_true rfl hc
  · rw [if_neg hc]
    apply iff_of_false _ hc
    intro hcontra
    cases hcontra

/-! ## Concrete fixtures -/

/-! ## C2 witness and counterexample -/

/-- C2 witness: the amended trust gate applied to a concrete skipping run
(trusted = 1 validator of power 1 at height 1, untrusted height 10 signed
by the same validator; signed = 1, wrapped minimum = 1, so the gate does
not fire). -/
theorem c2_witness :
    (is_within_trust_period tsS.last_header.header 100 5 = .ok ()
      ∧ validate shF1.header shF1.commit uvalsF1 (some uvalsF1) = .ok ()
      ∧ ¬ shF1.header.time ≤ tsS.last_header.header.time
      ∧ tsS.last_header.header.height + 1 < shF1.header.height
      ∧ LightSignedHeader.voting_power_in oTrue shF1.commit
          (tsS.validators.intersect uvalsF1) = .ok 1)
    ∧ ((verify_single oTrue tsS shF1 uvalsF1 uvalsF1 ⟨2, 3⟩ 100 5
        = .error (.insufficientSignedVotingPower tsS.validators.total_power 1 2 3)
      ↔ 1 < TrustThresholdFraction.minimum_power_to_be_trusted ⟨2, 3⟩
          tsS.validators.total_power)
      ∧ TrustThresholdFraction.minimum_power_to_be_trusted ⟨2, 3⟩
          tsS.validators.total_power
        = (tsS.validators.total_power * 2 % U64 / 3 + 1) % U64) :=
  ⟨⟨by decide, by decide, by decide, by decide, by decide⟩,
   c2_skipping_trust_gate oTrue tsS shF1 uvalsF1 uvalsF1 ⟨2, 3⟩ 100 5 1
     (by decide) (by decide) (by decide) (by decide) (by decide)⟩

/-- C2 counterexample: with trusted total power 2^63 and the default 2/3
threshold, the `u64` product `total * numerator` wraps to 0, the computed
minimum collapses to 1, and `verify_single` accepts a skip backed by
signed power 1 — though the claim's exact-arithmetic minimum
`⌊2^63·2/3⌋ + 1` far exceeds the signed power, so the claim demands an
`InsufficientSignedVotingPower` failure here. -/
theorem c2_counterexample_wrapped_minimum :
    (is_within_trust_period tsB.last_header.header 100 5 = .ok ()
      ∧ validate shF1.header shF1.commit uvalsF1 (some uvalsF1) = .ok ()
      ∧ ¬ shF1.header.time ≤ tsB.last_header.header.time
      ∧ tsB.last_header.header.height + 1 < shF1.header.height
      ∧ LightSignedHeader.voting_power_in oTrue shF1.commit
          (tsB.validators.intersect uvalsF1) = .ok 1)
    ∧ tsB.validators.total_power = 2 ^ 63
    ∧ 1 < 2 ^ 63 * 2 / 3 + 1
    ∧ verify_single oTrue tsB shF1 uvalsF1 uvalsF1 ⟨2, 3⟩ 100 5
        = .ok (TrustedState.new shF1 uvalsF1) :=
  ⟨⟨by decide, by decide, by decide, by decide, by decide⟩,
   by decide, by decide, by decide⟩

/-! ## C3 witness and counterexample -/

/-- C3 witness: the amended +2/3 rule applied to a concrete sequential run
(two validators of power 1, only one signs: 3·1 ≤ 2·2, so `verify_single`
fails with `InvalidCommit`). -/
theorem c3_witness :
    (is_within_trust_period tsSeq.last_header.header 100 5 = .ok ()
      ∧ validate shF2.header shF2.commit uvalsF2 (some uvalsF2) = .ok ()
      ∧ ¬ shF2.header.time ≤ tsSeq.last_header.header.time
      ∧ shF2.header.height = tsSeq.last_header.header.height + 1
      ∧ tsSeq.last_header.header.next_validators_hash = shF2.header.validators_hash
      ∧ LightSignedHeader.voting_power_in oTrue shF2.commit uvalsF2 = .ok 1)
    ∧ (verify_single oTrue tsSeq shF2 uvalsF2 uvalsF2 ⟨2, 3⟩ 100 5
        = .error (.invalidCommit uvalsF2.total_power 1)
      ↔ 1 * 3 % U64 ≤ uvalsF2.total_power * 2 % U64) :=
  ⟨⟨by decide, by decide, by decide, by decide, by decide, by decide⟩,
   c3_full_commit_two_thirds oTrue tsSeq shF2 uvalsF2 uvalsF2 ⟨2, 3⟩ 100 5 1
     (by decide) (by decide) (by decide) (Or.inl ⟨by decide, by decide⟩) (by decide)⟩

/-- C3 counterexample: with untrusted total power 2^63, the `u64` product
`total * 2` wraps to 0, so the commit check `3·signed ≤ 2·total` computes
`3 ≤ 0` and passes with signed power 1 — though in the claim's exact
integer arithmetic `3·1 ≤ 2·2^63` holds, so the claim demands an
`InvalidCommit` failure here; `verify_single` instead succeeds. -/
theorem c3_counterexample_wrapped_product :
    (is_within_trust_period tsSeq3.last_header.header 100 5 = .ok ()
      ∧ validate shF3.header shF3.commit uvalsF3 (some uvalsF3) = .ok ()
      ∧ ¬ shF3.header.time ≤ tsSeq3.last_header.header.time
      ∧ shF3.header.height = tsSeq3.last_header.header.height + 1
      ∧ tsSeq3.last_header.header.next_validators_hash = shF3.header.validators_hash
      ∧ LightSignedHeader.voting_power_in oTrue shF3.commit uvalsF3 = .ok 1)
    ∧ uvalsF3.total_power = 2 ^ 63
    ∧ 1 * 3 ≤ 2 ^ 63 * 2
    ∧ verify_single oTrue tsSeq3 shF3 uvalsF3 uvalsF3 ⟨2, 3⟩ 100 5
        = .ok (TrustedState.new shF3 uvalsF3) :=
  ⟨⟨by decide, by decide, by decide, by decide, by decide, by decide⟩,
   by decide, by decide, by decide⟩

end TmLite
